import Mathlib

/-!
Verification of the pyrope exercise engine (`src/pyrope/core.py`) against its
natural-language specification.

The development shallowly embeds the parts of `core.py` that the claims are
about:

* the construction-time validation installed by `Exercise.__init_subclass__`
  (difficulty bounds, weight types),
* the derived properties of `ParametrizedExercise` (`score_weights`,
  `the_solution`, `a_solution`, `solution`, `max_scores`, `scores`,
  `total_score`, `correct`, `trivial_input`, `dummy_input`),
* the memoization discipline of the engine (`functools.cached_property`
  versus plain `property`), modelled as explicit cache slots in an engine
  state threaded through property reads, with stochastic hooks modelled as
  outcome streams indexed by a random-position counter,
* the trace of steps performed by `ExerciseRunner.finish`,
* the weighted-collection (`Quiz`) selection logic, which is imported by
  `src/mypool.py` from `pyrope.core` but absent from the provided sources and
  is therefore modelled from the specification.

Python dictionaries are embedded as ordered association lists
(`List (String × _)`), preserving insertion order, with `d1 | d2` embedded as
`dunion d1 d2`.  Python floats are embedded as rationals: none of the claims
depends on rounding behaviour.  Hook invocation via `ParametrizedExercise.apply`
(signature-driven keyword binding) is abstracted by passing the full keyword
bag to the hook; the defaults that `ifield_defaults` extracts from the scores
hook signature are carried explicitly as data (`scoresDefaults`).
-/

/-- Error kinds raised by the embedded code paths, mirroring the Python
exception classes (`ValueError`, `pyrope.errors.IllPosedError`, `TypeError`,
`KeyError`, `IndexError`). -/
inductive PyErr where
  | valueError (msg : String)
  | illPosed (msg : String)
  | typeError (msg : String)
  | keyError (msg : String)
  | indexError (msg : String)
deriving DecidableEq, Repr

instance {ε α : Type} [DecidableEq ε] [DecidableEq α] : DecidableEq (Except ε α) :=
  fun a b =>
    match a, b with
    | .ok x, .ok y => decidable_of_iff (x = y) (by simp)
    | .error x, .error y => decidable_of_iff (x = y) (by simp)
    | .ok _, .error _ => isFalse (fun h => by cases h)
    | .error _, .ok _ => isFalse (fun h => by cases h)

/-- Opaque runtime values (answers, parameters, solutions).  The exercises
pass sympy expressions, numbers and strings around; the claims only need a
type with decidable equality. -/
inductive Val where
  | int (n : ℤ)
  | str (s : String)
  | rat (q : ℚ)
deriving DecidableEq, Repr

/-- A Python `dict` keyed by strings, embedded as an ordered association
list. -/
abbrev Bag := List (String × Val)

/-- First-match lookup in an ordered association list, the embedding of
`d[k]` / `d.get(k)`. -/
def lookupKV {κ α : Type} [DecidableEq κ] (k : κ) : List (κ × α) → Option α
  | [] => none
  | (k2, v) :: rest => if k = k2 then some v else lookupKV k rest

/-- Embedding of the Python dict containment test `k in d`. -/
def hasKey {κ α : Type} [DecidableEq κ] (k : κ) (l : List (κ × α)) : Bool :=
  (lookupKV k l).isSome

/-- Embedding of Python dict union `d1 | d2`: keys of `d1` in their original
order (values overridden by `d2` where present), followed by the keys of `d2`
that are new, in their order. -/
def dunion {κ α : Type} [DecidableEq κ] (a b : List (κ × α)) : List (κ × α) :=
  a.map (fun p => match lookupKV p.1 b with
    | some v => (p.1, v)
    | none => p) ++
  b.filter (fun p => (lookupKV p.1 a).isNone)


/-- The weight specification stored on an `Exercise` after construction
(`self.weights`): either a single number or a per-field mapping
(`core.py` lines 115 to 136). -/
inductive WeightSpec where
  | scalar (w : ℚ)
  | mapping (m : List (String × ℚ))
deriving DecidableEq, Repr

/-- The slice of an input-field object (widget library, external collaborator)
that the engine reads: the value-type hooks `trivial_value()`, `dummy_value()`,
the automatic scores `auto_max_score` and `auto_score`, and the mutable
correctness slot `ifield.correct` (which starts out `None` on a fresh
attempt). -/
structure IFieldT where
  trivialValue : Val
  dummyValue : Val
  autoMaxScore : ℚ
  autoScore : ℚ
  correctSlot : Option Bool := none
deriving DecidableEq, Repr

/-- One value of the mapping returned by a `scores` hook: a number, a
`(score, max_score)` pair, or `None`. -/
inductive ScoreEntry where
  | num (q : ℚ)
  | pair (s m : ℚ)
  | noneE
deriving DecidableEq, Repr

/-- Return value of the `scores` hook: `None`, a single number, a pair, a
mapping from field name to entry, or some other object (which the engine
rejects). -/
inductive ScoresOut where
  | noneO
  | num (q : ℚ)
  | pair (s m : ℚ)
  | mapping (m : List (String × ScoreEntry))
  | other
deriving DecidableEq, Repr

/-- Return value of the `the_solution` / `a_solution` hooks: `None`, a bare
(non-dict) value, or a mapping from field name to value. -/
inductive SolOut where
  | noneS
  | bare (v : Val)
  | mapping (m : List (String × Val))
deriving DecidableEq, Repr

/-- A `ParametrizedExercise` with its parameter sample already drawn and its
problem model already built, as consumed by the derived-value computations of
`core.py`.  Hooks are deterministic here; their outputs given the fixed
parameter sample are stored directly (`theSolutionOut` is the value of
`self.apply(self.exercise.the_solution, self.parameters)` and so on).  The
`scores` hook is kept as a function because the engine invokes it with
several different answer bags.  `scoresDefaults` is the dictionary that
`ifield_defaults(self.exercise.scores)` extracts from the hook signature:
the declared defaults of parameters named after input fields. -/
structure Exercise where
  weights : WeightSpec
  params : Bag
  ifields : List (String × IFieldT)
  theSolutionOut : SolOut
  aSolutionOut : SolOut
  scoresHook : Bag → ScoresOut
  scoresDefaults : Bag

/-- Names of the input fields, in model order. -/
def ifieldNames (ex : Exercise) : List String := ex.ifields.map Prod.fst

/-- `ParametrizedExercise.trivial_input` (`core.py` lines 414 to 419). -/
def trivial_input (ex : Exercise) : Bag :=
  ex.ifields.map (fun p => (p.1, p.2.trivialValue))

/-- `ParametrizedExercise.dummy_input` (`core.py` lines 421 to 426). -/
def dummy_input (ex : Exercise) : Bag :=
  ex.ifields.map (fun p => (p.1, p.2.dummyValue))

/-- `ParametrizedExercise.score_weights` (`core.py` lines 436 to 454) as a
function of the weight specification and the input fields: a mapping weight
must only use input-field names (else `ValueError`) and is completed with
weight `1.0` for missing fields; a scalar weight is broadcast to every field,
or bound to the synthetic key `None` when there are no fields. -/
def score_weightsFn (w : WeightSpec) (ifields : List (String × IFieldT)) :
    Except PyErr (List (Option String × ℚ)) :=
  match w with
  | .mapping m =>
    if m.all (fun p => hasKey p.1 ifields) then
      .ok (m.map (fun p => (some p.1, p.2)) ++
        (ifields.filter (fun p => (lookupKV p.1 m).isNone)).map
          (fun p => (some p.1, (1 : ℚ))))
    else
      .error (.valueError "All keys of weights have to match an input field.")
  | .scalar w =>
    if ifields.isEmpty then .ok [(none, w)]
    else .ok (ifields.map (fun p => (some p.1, w)))

/-- `ParametrizedExercise.score_weights` for an exercise. -/
def score_weights (ex : Exercise) : Except PyErr (List (Option String × ℚ)) :=
  score_weightsFn ex.weights ex.ifields

/-- Normalization of an explicit solution-hook return value (`core.py` lines
335 to 345 and 367 to 377): `None` becomes the empty mapping, a mapping is
kept, and a bare value is only legal with exactly one input field, in which
case it is wrapped as a singleton mapping for that field. -/
def explicitSolution (out : SolOut) (ifields : List (String × IFieldT))
    (msg : String) : Except PyErr (List (String × Val)) :=
  match out with
  | .noneS => .ok []
  | .mapping m => .ok m
  | .bare v =>
    match ifields with
    | [(n, _)] => .ok [(n, v)]
    | _ => .error (.illPosed msg)

/-- The Python test `name.endswith(chr(95))` on the reserved suffix (a single
trailing underscore), over the character list of the string. -/
def endsWithUnderscore (s : String) : Bool :=
  s.data.getLast? = some (Char.ofNat 95)

/-- The Python slice `name[:-1]`: the string without its final character. -/
def stripLast (s : String) : String :=
  String.mk s.data.dropLast

/-- Implicit solutions from the underscore naming convention (`core.py` lines
347 to 354): an input field named with a trailing underscore, whose
suffix-stripped name is a parameter and which has no explicit solution,
receives that parameter value. -/
def implicitSolution (params : Bag) (ifields : List (String × IFieldT))
    (explicit : List (String × Val)) : List (String × Val) :=
  ifields.filterMap (fun p =>
    if endsWithUnderscore p.1 && hasKey (stripLast p.1) params
        && !(hasKey p.1 explicit) then
      (lookupKV (stripLast p.1) params).map (fun v => (p.1, v))
    else none)

/-- The merged authoritative solution mapping `explicit | implicit`
(`core.py` line 356). -/
def mergedSolution (params : Bag) (ifields : List (String × IFieldT))
    (explicit : List (String × Val)) : List (String × Val) :=
  dunion explicit (implicitSolution params ifields explicit)

/-- The `IllPosedError` message of `the_solution` (`core.py` lines 340 to
343). -/
def theSolutionMsg : String :=
  "Unless there is only a single input field, the solution must be a dictionary."

/-- The `IllPosedError` message of `a_solution` (`core.py` lines 372 to
375). -/
def aSolutionMsg : String :=
  "Unless there is only a single input field, a solution must be a dictionary."

/-- `ParametrizedExercise.the_solution` (`core.py` lines 333 to 363) as a
function of the hook output, the parameter sample and the input fields.  The
final dictionary comprehension re-reads the merged solution through the model
input fields (`ifield.the_solution`), which is embedded as restricting the
merged mapping to the input fields in model order. -/
def the_solutionFn (out : SolOut) (params : Bag)
    (ifields : List (String × IFieldT)) : Except PyErr (List (String × Val)) :=
  match explicitSolution out ifields theSolutionMsg with
  | .error e => .error e
  | .ok explicit =>
    let sol := mergedSolution params ifields explicit
    .ok (ifields.filterMap (fun p => (lookupKV p.1 sol).map (fun v => (p.1, v))))

/-- `ParametrizedExercise.a_solution` (`core.py` lines 365 to 384): same
normalization, but without implicit solutions. -/
def a_solutionFn (out : SolOut) (ifields : List (String × IFieldT)) :
    Except PyErr (List (String × Val)) :=
  match explicitSolution out ifields aSolutionMsg with
  | .error e => .error e
  | .ok sol =>
    .ok (ifields.filterMap (fun p => (lookupKV p.1 sol).map (fun v => (p.1, v))))

/-- `ParametrizedExercise.the_solution` for an exercise. -/
def the_solution (ex : Exercise) : Except PyErr (List (String × Val)) :=
  the_solutionFn ex.theSolutionOut ex.params ex.ifields

/-- `ParametrizedExercise.a_solution` for an exercise. -/
def a_solution (ex : Exercise) : Except PyErr (List (String × Val)) :=
  a_solutionFn ex.aSolutionOut ex.ifields

/-- Merge of the two solution mappings through `ifield.solution` (`core.py`
lines 386 to 394): per input field, the reference solution if present, else
the example solution. -/
def solutionFn (tsol asol : List (String × Val))
    (ifields : List (String × IFieldT)) : List (String × Val) :=
  ifields.filterMap (fun p =>
    match lookupKV p.1 tsol with
    | some v => some (p.1, v)
    | none => (lookupKV p.1 asol).map (fun v => (p.1, v)))

/-- `ParametrizedExercise.solution`: triggers both solution computations and
merges them. -/
def solution (ex : Exercise) : Except PyErr (List (String × Val)) :=
  match the_solution ex with
  | .error e => .error e
  | .ok tsol =>
    match a_solution ex with
    | .error e => .error e
    | .ok asol => .ok (solutionFn tsol asol ex.ifields)

/-- Error-propagating elementwise map over a list, the embedding of a Python
loop in which each iteration may raise. -/
def mapME {α β : Type} (f : α → Except PyErr β) : List α → Except PyErr (List β)
  | [] => .ok []
  | a :: as =>
    match f a with
    | .error e => .error e
    | .ok b =>
      match mapME f as with
      | .error e => .error e
      | .ok bs => .ok (b :: bs)

/-- Indexing `self.score_weights[name]`, raising `KeyError` when absent. -/
def windex (w : List (Option String × ℚ)) (n : String) : Except PyErr ℚ :=
  match lookupKV (some n) w with
  | some v => .ok v
  | none => .error (.keyError n)

/-- The probe invocation `self.apply(self.exercise.scores, self.parameters |
self.dummy_input)` shared by `max_scores` (line 459) and `scores`
(line 545). -/
def scoresProbe (ex : Exercise) : ScoresOut :=
  ex.scoresHook (dunion ex.params (dummy_input ex))

/-- `ParametrizedExercise.max_scores` (`core.py` lines 456 to 540) as a
function of the already-computed merged solution mapping.  Returns the
per-field maximal scores together with the value assigned to
`self._max_total_score`.  Error timing within the dict branch is coarsened:
the first erroneous entry in list order raises, where Python interleaves the
loops; all values on success paths agree with the source. -/
def max_scoresFn (ex : Exercise) (sol : List (String × Val)) :
    Except PyErr (List (String × Option ℚ) × ℚ) :=
  match scoresProbe ex with
  | .noneO =>
    match score_weights ex with
    | .error e => .error e
    | .ok w =>
      match mapME (fun (p : String × IFieldT) =>
          match windex w p.1 with
          | .error e => Except.error e
          | .ok wv => Except.ok (p.1, p.2.autoMaxScore * wv)) ex.ifields with
      | .error e => .error e
      | .ok ms => .ok (ms.map (fun p => (p.1, some p.2)), (ms.map Prod.snd).sum)
  | .pair _ m2 =>
    match score_weights ex with
    | .error e => .error e
    | .ok w =>
      match (w.map Prod.snd).head? with
      | none => .error (.indexError "list index out of range")
      | some w0 =>
        let total := m2 * w0
        match ex.ifields with
        | [(n, _)] => .ok ([(n, some total)], total)
        | _ => .ok (ex.ifields.map (fun p => (p.1, none)), total)
  | .num _ =>
    if ex.ifields.all (fun p => hasKey p.1 sol) then
      match ex.scoresHook (dunion ex.params sol) with
      | .num q =>
        match score_weights ex with
        | .error e => .error e
        | .ok w =>
          match (w.map Prod.snd).head? with
          | none => .error (.indexError "list index out of range")
          | some w0 =>
            let total := q * w0
            match ex.ifields with
            | [(n, _)] => .ok ([(n, some total)], total)
            | _ => .ok (ex.ifields.map (fun p => (p.1, none)), total)
      | _ => .error (.typeError "float() argument must be a number")
    else
      .error (.illPosed
        "Unable to determine a maximal total score because there is no solution for an input field.")
  | .mapping _ =>
    let answer : Bag := ex.ifields.map (fun p => (p.1,
      match lookupKV p.1 sol with
      | some v => v
      | none => p.2.dummyValue))
    match ex.scoresHook (dunion ex.params answer) with
    | .mapping M =>
      let M1 := M.map (fun p => (p.1,
          if hasKey p.1 ex.ifields && !(hasKey p.1 sol) then
            match p.2 with
            | .num _ => ScoreEntry.noneE
            | e => e
          else p.2)) ++
        (ex.ifields.filter (fun p => !(hasKey p.1 M))).map
          (fun p => (p.1, ScoreEntry.noneE))
      match mapME (fun (p : String × ScoreEntry) =>
          match (match p.2 with
            | .num q => Except.ok q
            | .pair _ mx => Except.ok mx
            | .noneE =>
              match lookupKV p.1 ex.ifields with
              | some fld => Except.ok fld.autoMaxScore
              | none => Except.error (PyErr.keyError p.1)) with
          | .error e => Except.error e
          | .ok v =>
            match score_weights ex with
            | .error e => Except.error e
            | .ok w =>
              match windex w p.1 with
              | .error e => Except.error e
              | .ok wv => Except.ok (p.1, v * wv)) M1 with
      | .error e => .error e
      | .ok ms => .ok (ms.map (fun p => (p.1, some p.2)), (ms.map Prod.snd).sum)
    | _ => .error (.typeError "second scores invocation did not return a dict")
  | .other =>
    .error (.illPosed
      "If implemented, the score method must return a number, a pair of numbers or a dictionary with values of this type, where a number is either an int or a float.")

/-- `ParametrizedExercise.max_scores` including its `self.solution`
dependency; the second component is `self._max_total_score`, so
`max_total_score` is its `Prod.snd`. -/
def max_scoresP (ex : Exercise) : Except PyErr (List (String × Option ℚ) × ℚ) :=
  match solution ex with
  | .error e => .error e
  | .ok sol => max_scoresFn ex sol

/-- The non-empty answers `{name: value for name, value in
self.answers.items() if value is not None}` (`core.py` lines 549 to 552). -/
def nonEmptyAnswers (raw : List (String × Option Val)) : Bag :=
  raw.filterMap (fun p => p.2.map (fun v => (p.1, v)))

/-- Python set equality of two key views, `set(a) == set(b)`. -/
def keysSetEq (a b : List String) : Bool :=
  a.all (b.contains ·) && b.all (a.contains ·)

/-- `no_scores = {name: None for name in self.ifields}` (line 553). -/
def noScoresMap (ex : Exercise) : List (String × Option ℚ) :=
  ex.ifields.map (fun p => (p.1, (none : Option ℚ)))

/-- Whether a probe result selects the joint-scoring interpretation:
`isinstance(output, float_types + (tuple,))` (line 557). -/
def isNumOrPair : ScoresOut → Bool
  | .num _ => true
  | .pair _ _ => true
  | _ => false

/-- The single-input-field branch of `scores` (`core.py` lines 588 to 598):
the hook result (a number, or the first component of a pair) times the weight
of the first input field becomes the total and that field's score. -/
def singleFieldResult (ex : Exercise) (q : ℚ) :
    Except PyErr (List (String × Option ℚ) × ℚ) :=
  match ex.ifields.head? with
  | none => .error (.indexError "list index out of range")
  | some (n, _) =>
    match score_weights ex with
    | .error e => .error e
    | .ok w =>
      match windex w n with
      | .error e => .error e
      | .ok wv => .ok ([(n, some (q * wv))], q * wv)

/-- The fall-through of `scores` when the hook returned `None` (`core.py`
lines 612 to 622): every per-field score falls back to the automatic score,
weighted. -/
def noneResult (ex : Exercise) : Except PyErr (List (String × Option ℚ) × ℚ) :=
  match mapME (fun (p : String × IFieldT) =>
      match score_weights ex with
      | .error e => Except.error e
      | .ok w =>
        match windex w p.1 with
        | .error e => Except.error e
        | .ok wv => Except.ok (p.1, p.2.autoScore * wv)) ex.ifields with
  | .error e => .error e
  | .ok l => .ok (l.map (fun p => (p.1, some p.2)), (l.map Prod.snd).sum)

/-- Intermediate state of one entry of the scores dict while the engine
mutates it in place (lines 600 to 619): a resolved float, the Python `None`
written for a missing field, an untouched entry under a non-field key, or a
pending exception. -/
inductive PScore where
  | val (q : ℚ)
  | missingNone
  | raw (e : ScoreEntry)
  | errP (e : PyErr)
deriving DecidableEq, Repr

/-- The first mutation loop of the dict branch of `scores` (`core.py` lines
600 to 610), expressed entrywise: an input-field entry that was filled with a
dummy value is overridden with `0.0`; pairs are collapsed to their first
component; a `None` value for an input field raises `TypeError` via
`float(None)`; entries under non-field keys are untouched. -/
def scoresPhase1Entry (ex : Exercise) (fillKeys : List String) (k : String)
    (e : ScoreEntry) : PScore :=
  if (ifieldNames ex).contains k then
    if fillKeys.contains k then .val 0
    else
      match e with
      | .num q => .val q
      | .pair s _ => .val s
      | .noneE => .errP (.typeError "float() argument must not be None")
  else .raw e

/-- The scores dict after the first mutation loop: original entries in order,
followed by the input fields missing from the dict, written as `None`. -/
def scoresPhase1 (ex : Exercise) (fillKeys : List String)
    (M : List (String × ScoreEntry)) : List (String × PScore) :=
  M.map (fun p => (p.1, scoresPhase1Entry ex fillKeys p.1 p.2)) ++
  (ex.ifields.filter (fun p => !(hasKey p.1 M))).map
    (fun p => (p.1, PScore.missingNone))

/-- The final loop of `scores` (`core.py` lines 615 to 619), expressed
entrywise: input-field entries have `None` replaced by the automatic score
and are multiplied by their weight; entries under non-field keys are left
alone. -/
def scoresFinalEntry (ex : Exercise) (k : String) (p : PScore) : PScore :=
  match lookupKV k ex.ifields with
  | none => p
  | some fld =>
    match (match p with
      | .missingNone => some fld.autoScore
      | .val q => some q
      | _ => none) with
    | none => p
    | some q =>
      match score_weights ex with
      | .error e => .errP e
      | .ok w =>
        match lookupKV (some k) w with
        | some wv => .val (q * wv)
        | none => .errP (.keyError k)

/-- Resolution of one processed entry at `sum(scores.values())` time: a
pending exception is raised, and a remaining non-numeric value makes the sum
raise `TypeError`. -/
def pscoreToScore : PScore → Except PyErr ℚ
  | .val q => .ok q
  | .raw (.num q) => .ok q
  | .raw _ => .error (.typeError "unsupported operand type for sum")
  | .missingNone => .error (.typeError "unsupported operand type for sum")
  | .errP e => .error e

/-- The dict branch of `scores` (`core.py` lines 600 to 622): phase one
mutates the returned dict, the final loop weights the input-field entries,
and `sum(scores.values())` becomes the total, raising `TypeError` when a
non-field entry is not a plain number.  Error timing is coarsened to first
erroneous entry in list order. -/
def dictResult (ex : Exercise) (fillKeys : List String)
    (M : List (String × ScoreEntry)) : Except PyErr (List (String × Option ℚ) × ℚ) :=
  let l1 := scoresPhase1 ex fillKeys M
  let l2 := l1.map (fun p => (p.1, scoresFinalEntry ex p.1 p.2))
  match mapME (fun (p : String × PScore) =>
      (pscoreToScore p.2).map (fun q => (p.1, q))) l2 with
  | .error e => .error e
  | .ok entries =>
    .ok (entries.map (fun p => (p.1, some p.2)), (entries.map Prod.snd).sum)

/-- `answers = defaults | answers` (`core.py` line 577): the hook-declared
defaults overlaid with the non-empty answers. -/
def scoresAnswers2 (ex : Exercise) (raw : List (String × Option Val)) : Bag :=
  dunion ex.scoresDefaults (nonEmptyAnswers raw)

/-- `fill_values` (`core.py` lines 579 to 582): dummy inputs for the fields
that are neither answered nor defaulted. -/
def scoresFillValues (ex : Exercise) (raw : List (String × Option Val)) : Bag :=
  (ex.ifields.filter (fun p => !(hasKey p.1 (scoresAnswers2 ex raw)))).map
    (fun p => (p.1, p.2.dummyValue))

/-- The keyword bag `self.parameters | answers` of the field-wise hook
invocation (`core.py` lines 583 to 586). -/
def scoresCallBag (ex : Exercise) (raw : List (String × Option Val)) : Bag :=
  dunion ex.params (dunion (scoresAnswers2 ex raw) (scoresFillValues ex raw))

/-- The field-wise part of `scores` (`core.py` lines 575 to 622): overlay
hook defaults with the non-empty answers, fill the remaining fields with
dummy values, invoke the hook, and dispatch on the shape of its result. -/
def scoresFieldwise (ex : Exercise) (raw : List (String × Option Val)) :
    Except PyErr (List (String × Option ℚ) × ℚ) :=
  match ex.scoresHook (scoresCallBag ex raw) with
  | .num q => singleFieldResult ex q
  | .pair s _ => singleFieldResult ex s
  | .mapping M => dictResult ex ((scoresFillValues ex raw).map Prod.fst) M
  | .noneO => noneResult ex
  | .other => .error (.typeError "score object is not subscriptable")

/-- `ParametrizedExercise.scores` (`core.py` lines 542 to 622) without the
initial `self.solution` trigger, as a function of the raw answer mapping
(`None` marking an empty answer).  The second component of the result is the
value assigned to `self._total_score`. -/
def scoresFn (ex : Exercise) (raw : List (String × Option Val)) :
    Except PyErr (List (String × Option ℚ) × ℚ) :=
  let output := scoresProbe ex
  let answers := nonEmptyAnswers raw
  if isNumOrPair output && !(decide (ex.ifields.length = 1)) then
    if !(keysSetEq (answers.map Prod.fst) (ifieldNames ex)) then
      .ok (noScoresMap ex, 0)
    else
      match (match ex.scoresHook (dunion ex.params answers) with
        | .num q => Except.ok q
        | .pair s _ => Except.ok s
        | .noneO => Except.error (PyErr.typeError "NoneType is not subscriptable")
        | .mapping _ => Except.error (PyErr.keyError "0")
        | .other => Except.error (PyErr.typeError "score object is not subscriptable")) with
      | .error e => .error e
      | .ok q =>
        match score_weights ex with
        | .error e => .error e
        | .ok w =>
          match (w.map Prod.snd).head? with
          | none => .error (.indexError "list index out of range")
          | some w0 => .ok (noScoresMap ex, q * w0)
  else
    scoresFieldwise ex raw

/-- `ParametrizedExercise.scores` including the `self.solution` trigger on
line 544 (whose failure propagates). -/
def scoresP (ex : Exercise) (raw : List (String × Option Val)) :
    Except PyErr (List (String × Option ℚ) × ℚ) :=
  match solution ex with
  | .error e => .error e
  | .ok _ => scoresFn ex raw

/-- `ParametrizedExercise.total_score` (`core.py` lines 624 to 627). -/
def total_scoreP (ex : Exercise) (raw : List (String × Option Val)) :
    Except PyErr ℚ :=
  (scoresP ex raw).map Prod.snd

/-- The comparison loop of `ParametrizedExercise.correct` (`core.py` lines
634 to 652) over already-computed score mappings: per input field, if the
correctness slot is unset and both the score and the maximal score are
numbers, the field is correct iff they are equal; otherwise the slot value is
reported.  Indexing a mapping that lacks the field raises `KeyError`. -/
def correctFn (ex : Exercise) (sc ms : List (String × Option ℚ)) :
    Except PyErr (List (String × Option Bool)) :=
  mapME (fun (p : String × IFieldT) =>
    match p.2.correctSlot with
    | some b => Except.ok (p.1, some b)
    | none =>
      match lookupKV p.1 sc with
      | none => Except.error (PyErr.keyError p.1)
      | some s =>
        match s with
        | none => Except.ok (p.1, (none : Option Bool))
        | some sv =>
          match lookupKV p.1 ms with
          | none => Except.error (PyErr.keyError p.1)
          | some m =>
            match m with
            | none => Except.ok (p.1, (none : Option Bool))
            | some mv => Except.ok (p.1, some (decide (sv = mv)))) ex.ifields

/-- `ParametrizedExercise.correct`: computes `max_scores` first, then
`scores`, then compares them per field. -/
def correctP (ex : Exercise) (raw : List (String × Option Val)) :
    Except PyErr (List (String × Option Bool)) :=
  match max_scoresP ex with
  | .error e => .error e
  | .ok (ms, _) =>
    match scoresP ex raw with
    | .error e => .error e
    | .ok (sc, _) => correctFn ex sc ms

/-- A Python object passed as a keyword argument to an `Exercise`
constructor: a number (covering the `float_types` tuple of `bool`, `int`,
`float` and the numpy variants), a string, a dict, `None`, or anything
else. -/
inductive PyVal where
  | num (q : ℚ)
  | str (s : String)
  | pdict (entries : List (PyVal × PyVal))
  | noneV
  | other
deriving Repr

/-- The configuration state stored on the exercise instance by the wrapped
constructor (`self.min_difficulty`, `self.max_difficulty`,
`self.weights`). -/
structure ExerciseConfig where
  minDifficulty : Option ℚ
  maxDifficulty : Option ℚ
  weights : WeightSpec
deriving DecidableEq, Repr

/-- The difficulty-bound check of the wrapped constructor (`core.py` lines
87 to 113): the value must be a number and lie in the closed unit
interval. -/
def checkDifficulty (v : PyVal) (argName : String) : Except PyErr ℚ :=
  match v with
  | .num q =>
    if 0 ≤ q ∧ q ≤ 1 then .ok q
    else .error (.valueError argName)
  | _ => .error (.valueError argName)

/-- One iteration of the weights-dict check (`core.py` lines 121 to 133):
the key must be a string and the value a number (cast to float), else
`ValueError`. -/
def weightEntryCheck (p : PyVal × PyVal) : Except PyErr (String × ℚ) :=
  match p.1 with
  | .str k =>
    match p.2 with
    | .num q => .ok (k, q)
    | _ => .error (.valueError "All values of weights have to be numbers.")
  | _ => .error (.valueError "All keys of weights have to be strings.")

/-- The weights check of the wrapped constructor (`core.py` lines 115 to
136): a number becomes a scalar weight, a dict must have string keys and
numeric values (cast to float), anything else raises `ValueError`.  No range
check is performed on the values. -/
def checkWeights (v : PyVal) : Except PyErr WeightSpec :=
  match v with
  | .num q => .ok (.scalar q)
  | .pdict entries =>
    match mapME weightEntryCheck entries with
    | .error e => .error e
    | .ok m => .ok (.mapping m)
  | _ => .error (.valueError "weights has to be a number or a dict.")

/-- The constructor wrapper installed by `Exercise.__init_subclass__`
(`core.py` lines 81 to 144): validates `min_difficulty`, then
`max_difficulty`, then `weights` (defaulting to the scalar `1`), in that
order, before delegating to the original constructor. -/
def exercise_init (minD maxD weightsArg : Option PyVal) :
    Except PyErr ExerciseConfig :=
  match (match minD with
    | none => Except.ok (none : Option ℚ)
    | some v => (checkDifficulty v "min_difficulty").map some) with
  | .error e => .error e
  | .ok minQ =>
    match (match maxD with
      | none => Except.ok (none : Option ℚ)
      | some v => (checkDifficulty v "max_difficulty").map some) with
    | .error e => .error e
    | .ok maxQ =>
      match checkWeights (weightsArg.getD (.num 1)) with
      | .error e => .error e
      | .ok w => .ok ⟨minQ, maxQ, w⟩

/-- The observable steps of `ExerciseRunner.finish` (`core.py` lines 768 to
806): recording the submission time, revealing solutions, the notification
messages, computing `correct` (which also flips the per-widget display
flags), rendering feedback, persisting the attempt, invoking the completion
callback, and writing the structured history-log entry. -/
inductive FinishEvent where
  | recordSubmittedAt
  | revealSolutions
  | notifyAnswers
  | notifyMaxTotalScore
  | notifyTotalScore
  | computeCorrect
  | renderFeedback
  | persistResult
  | invokeCallback
  | logSummary
deriving DecidableEq, Repr

/-- The runner state that `finish` branches on: the debug flag, whether the
exercise has a content id (`self.pexercise.id is not None`, so persistence is
possible), whether a completion callback was supplied, and the trace of
steps performed so far. -/
structure RunnerState where
  debug : Bool
  hasId : Bool
  hasCallback : Bool
  events : List FinishEvent
deriving DecidableEq, Repr

/-- Append one performed step to the runner trace. -/
def emitEvent (s : RunnerState) (e : FinishEvent) : RunnerState :=
  { s with events := s.events ++ [e] }

/-- `ExerciseRunner.finish` (`core.py` lines 768 to 806), step for step:
solutions are revealed here only when not in debug mode (in debug mode they
were already revealed during `run`); after rendering feedback the method
returns early when the exercise has no content id, skipping persistence, the
callback and the history log; the callback only fires when one was
supplied. -/
def runnerFinish (s : RunnerState) : RunnerState :=
  let s1 := emitEvent s .recordSubmittedAt
  let s2 := if !s1.debug then emitEvent s1 .revealSolutions else s1
  let s3 := emitEvent s2 .notifyAnswers
  let s4 := emitEvent s3 .notifyMaxTotalScore
  let s5 := emitEvent s4 .notifyTotalScore
  let s6 := emitEvent s5 .computeCorrect
  let s7 := emitEvent s6 .renderFeedback
  if !s7.hasId then s7
  else
    let s8 := emitEvent s7 .persistResult
    let s9 := if s8.hasCallback then emitEvent s8 .invokeCallback else s8
    emitEvent s9 .logSummary

/-- Inbound messages handled by `ExerciseRunner.observer` (`core.py` lines
825 to 831): widget-value changes and the submission signal. -/
inductive RunnerMsg where
  | changeWidgetValue (widgetId : Nat)
  | submit
deriving DecidableEq, Repr

/-- `ExerciseRunner.observer`: a widget-value change updates the widget (no
finishing step); receipt of a `Submit` message triggers `finish`. -/
def runnerObserver (s : RunnerState) (m : RunnerMsg) : RunnerState :=
  match m with
  | .changeWidgetValue _ => s
  | .submit => runnerFinish s

/-- The trace of finishing steps after a submission signal, for each
configuration of the debug, content-id and callback flags. -/
def finishTraceOf (debug hasId hasCallback : Bool) : List FinishEvent :=
  (runnerObserver ⟨debug, hasId, hasCallback, []⟩ .submit).events

/-- The canonical full order of the finishing steps as specified. -/
def finishCanonicalOrder : List FinishEvent :=
  [.recordSubmittedAt, .revealSolutions, .notifyAnswers, .notifyMaxTotalScore,
   .notifyTotalScore, .computeCorrect, .renderFeedback, .persistResult,
   .invokeCallback, .logSummary]

/-- Navigation modes of a weighted collection. -/
inductive NavMode where
  | free
  | sequential
deriving DecidableEq, Repr

/-- Modelled from the spec: the `Quiz` weighted-collection class is imported
from `pyrope.core` by `src/mypool.py` but is not defined anywhere in the
provided sources; its data model follows the specification: an ordered
sequence of children, a mapping from child index to weight (missing indices
default to 1), a navigation mode, an optional `select` count and a `shuffle`
flag. -/
structure Quiz where
  numChildren : Nat
  weights : List (Nat × ℚ)
  navigation : NavMode
  select : Option Nat
  shuffle : Bool

/-- Modelled from the spec: the per-child weights normalized from the weight
mapping, with missing indices defaulting to 1. -/
def normWeights (q : Quiz) : List (Nat × ℚ) :=
  (List.range q.numChildren).map (fun i => (i, (lookupKV i q.weights).getD 1))

/-- Modelled from the spec: one weighted draw.  Given the remaining
weighted entries and a target position `t` inside the total remaining
weight, walk the cumulative weights and return the chosen index together
with the remaining entries; an entry of weight `w` is chosen exactly on a
target interval of length `w`, realizing selection probability
weight / sum-of-remaining-weights for a uniform target. -/
def pickOne : List (Nat × ℚ) → ℚ → Option (Nat × List (Nat × ℚ))
  | [], _ => none
  | (i, w) :: rest, t =>
    if t < w then some (i, rest)
    else (pickOne rest (t - w)).map (fun p => (p.1, (i, w) :: p.2))

/-- Modelled from the spec: weighted sampling without replacement, driven by
a stream of uniform draws in the half-open unit interval; each draw `r` is
scaled by the sum of the remaining weights and the chosen entry is removed
before the next draw. -/
def sampleWR : List (Nat × ℚ) → Nat → List ℚ → List Nat
  | _, 0, _ => []
  | _, _ + 1, [] => []
  | ws, k + 1, r :: rs =>
    match pickOne ws (r * (ws.map Prod.snd).sum) with
    | none => []
    | some (i, rem) => i :: sampleWR rem k rs

/-- Modelled from the spec: the selected children before any shuffling; when
`select` is given and smaller than the number of children they are sampled
by weight without replacement, otherwise all children are exposed in index
order. -/
def baseSelection (q : Quiz) (rs : List ℚ) : List Nat :=
  match q.select with
  | some k =>
    if k < q.numChildren then sampleWR (normWeights q) k rs
    else List.range q.numChildren
  | none => List.range q.numChildren

/-- Modelled from the spec: the exposed children; the order is permuted (by
the shuffle oracle `perm`) only when the shuffle flag is set and the
navigation mode is `free`. -/
def exposedChildren (q : Quiz) (rs : List ℚ) (perm : List Nat → List Nat) :
    List Nat :=
  if q.shuffle && decide (q.navigation = .free) then perm (baseSelection q rs)
  else baseSelection q rs

/-- Return value of the `hints` hook (`core.py` lines 396 to 412): a bare
string, a sequence of strings, or a mapping from field name to a string or
sequence of strings. -/
inductive HintsOut where
  | hstr (s : String)
  | hseq (l : List String)
  | hdict (m : List (String × (String ⊕ List String)))
deriving DecidableEq, Repr

/-- The normalized result of the `hints` property: a plain tuple, the single
value returned for a one-field exercise, or a per-field mapping. -/
inductive HintsRes where
  | tup (l : List String)
  | single (v : String ⊕ List String)
  | perField (m : List (String × (String ⊕ List String)))
deriving DecidableEq, Repr

/-- `ParametrizedExercise.hints` (`core.py` lines 396 to 412): a string is
wrapped into a singleton tuple; a dict has its input-field entries normalized
to tuples (missing fields appended as empty tuples), returning its first
value when there is exactly one input field; anything else is tupled. -/
def hintsFn (out : HintsOut) (ifields : List (String × IFieldT)) : HintsRes :=
  match out with
  | .hstr s => .tup [s]
  | .hseq l => .tup l
  | .hdict m =>
    if m.isEmpty then .tup []
    else
      let m1 := (m.map (fun p => (p.1,
          if hasKey p.1 ifields then
            (Sum.inr (match p.2 with
              | Sum.inl s => [s]
              | Sum.inr l => l) : String ⊕ List String)
          else p.2))) ++
        (ifields.filter (fun p => !(hasKey p.1 m))).map
          (fun p => (p.1, (Sum.inr [] : String ⊕ List String)))
      match ifields with
      | [_] =>
        match m1.head? with
        | some p => .single p.2
        | none => .tup []
      | _ => .perField m1

/-- The problem model object produced by the `problem` hook (widget library,
external collaborator): input fields, output-field names, the rendered
template string and the widget identifiers. -/
structure IModel where
  ifields : List (String × IFieldT)
  ofields : List String
  template : String
  widgets : List Nat
deriving DecidableEq, Repr

/-- An exercise definition with possibly non-deterministic hooks: each hook
is an outcome stream indexed by the engine random position, advanced once per
hook-invoking property computation.  A deterministic hook is a stream that
ignores its index. -/
structure SExercise where
  weights : WeightSpec
  parametersHook : Nat → Bag
  problemHook : Nat → IModel
  theSolutionHook : Nat → SolOut
  aSolutionHook : Nat → SolOut
  hintsHook : Nat → HintsOut
  scoresHook : Nat → Bag → ScoresOut
  scoresDefaults : Bag

/-- The mutable state of one `ParametrizedExercise` instance: the random
position, the live answer mapping, one cache slot per `cached_property`
(`None` meaning "not yet computed", exactly the memoization discipline of
`functools.cached_property`), and the two plain attributes
`self._total_score` and `self._max_total_score`. -/
structure EngineState where
  rng : Nat
  answers : List (String × Option Val)
  parametersC : Option Bag := none
  modelC : Option IModel := none
  templateC : Option String := none
  ifieldsC : Option (List (String × IFieldT)) := none
  widgetsC : Option (List Nat) := none
  theSolutionC : Option (List (String × Val)) := none
  aSolutionC : Option (List (String × Val)) := none
  hintsC : Option HintsRes := none
  scoreWeightsC : Option (List (Option String × ℚ)) := none
  maxScoresC : Option (List (String × Option ℚ)) := none
  trivialInputC : Option Bag := none
  dummyInputC : Option Bag := none
  totalScoreS : Option ℚ := none
  maxTotalScoreS : Option ℚ := none
deriving DecidableEq, Repr

/-- A property read: returns the value (or the raised exception) together
with the successor state. -/
abbrev ERead (α : Type) := EngineState → Except PyErr α × EngineState

/-- Advance the random position by one (one hook-invoking computation). -/
def tick (s : EngineState) : EngineState := { s with rng := s.rng + 1 }

/-- The memoization discipline of `functools.cached_property`: if the slot
is filled, return it without recomputation; otherwise compute, store on
success, and propagate an exception without caching it (a failed computation
is retried on the next access). -/
def cachedReadE {α : Type} (get : EngineState → Option α)
    (set : α → EngineState → EngineState) (compute : ERead α) : ERead α :=
  fun s =>
    match get s with
    | some v => (.ok v, s)
    | none =>
      match compute s with
      | (.ok v, s1) => (.ok v, set v s1)
      | (.error e, s1) => (.error e, s1)

/-- Fix the stochastic hooks of an exercise at one random position, yielding
the deterministic view consumed by the pure derived-value functions. -/
def SExercise.freeze (sex : SExercise) (params : Bag)
    (ifields : List (String × IFieldT)) (r : Nat) : Exercise :=
  { weights := sex.weights, params := params, ifields := ifields,
    theSolutionOut := sex.theSolutionHook r,
    aSolutionOut := sex.aSolutionHook r,
    scoresHook := sex.scoresHook r,
    scoresDefaults := sex.scoresDefaults }

/-- `ParametrizedExercise.parameters` (`core.py` lines 287 to 302), a
`cached_property`: difficulty sampling and the `parameters` hook invocation
are one stream draw. -/
def readParameters (sex : SExercise) : ERead Bag :=
  cachedReadE (fun s => s.parametersC)
    (fun v s => { s with parametersC := some v })
    (fun s => (.ok (sex.parametersHook s.rng), tick s))

/-- `ParametrizedExercise.model` (`core.py` lines 304 to 312), a
`cached_property`: invokes the `problem` hook and validates that every
output field has a parameter. -/
def readModel (sex : SExercise) : ERead IModel :=
  cachedReadE (fun s => s.modelC)
    (fun v s => { s with modelC := some v })
    (fun s =>
      match readParameters sex s with
      | (.error e, s1) => (.error e, s1)
      | (.ok ps, s1) =>
        let m := sex.problemHook s1.rng
        let s2 := tick s1
        if m.ofields.all (fun o => hasKey o ps) then (.ok m, s2)
        else (.error (.illPosed "No parameter for an output field."), s2))

/-- `ParametrizedExercise.template` (`core.py` lines 314 to 316), a
`cached_property` over the cached model. -/
def readTemplate (sex : SExercise) : ERead String :=
  cachedReadE (fun s => s.templateC)
    (fun v s => { s with templateC := some v })
    (fun s =>
      match readModel sex s with
      | (.error e, s1) => (.error e, s1)
      | (.ok m, s1) => (.ok m.template, s1))

/-- `ParametrizedExercise.ifields` (`core.py` lines 325 to 327), a
`cached_property` over the cached model. -/
def readIfields (sex : SExercise) : ERead (List (String × IFieldT)) :=
  cachedReadE (fun s => s.ifieldsC)
    (fun v s => { s with ifieldsC := some v })
    (fun s =>
      match readModel sex s with
      | (.error e, s1) => (.error e, s1)
      | (.ok m, s1) => (.ok m.ifields, s1))

/-- `ParametrizedExercise.widgets` (`core.py` lines 329 to 331), a
`cached_property` over the cached model. -/
def readWidgets (sex : SExercise) : ERead (List Nat) :=
  cachedReadE (fun s => s.widgetsC)
    (fun v s => { s with widgetsC := some v })
    (fun s =>
      match readModel sex s with
      | (.error e, s1) => (.error e, s1)
      | (.ok m, s1) => (.ok m.widgets, s1))

/-- `ParametrizedExercise.trivial_input` (`core.py` lines 414 to 419), a
`cached_property`. -/
def readTrivialInput (sex : SExercise) : ERead Bag :=
  cachedReadE (fun s => s.trivialInputC)
    (fun v s => { s with trivialInputC := some v })
    (fun s =>
      match readIfields sex s with
      | (.error e, s1) => (.error e, s1)
      | (.ok ifs, s1) => (.ok (ifs.map (fun p => (p.1, p.2.trivialValue))), s1))

/-- `ParametrizedExercise.dummy_input` (`core.py` lines 421 to 426), a
`cached_property`. -/
def readDummyInput (sex : SExercise) : ERead Bag :=
  cachedReadE (fun s => s.dummyInputC)
    (fun v s => { s with dummyInputC := some v })
    (fun s =>
      match readIfields sex s with
      | (.error e, s1) => (.error e, s1)
      | (.ok ifs, s1) => (.ok (ifs.map (fun p => (p.1, p.2.dummyValue))), s1))

/-- `ParametrizedExercise.score_weights` (`core.py` lines 436 to 454), a
`cached_property`; it invokes no hook. -/
def readScoreWeights (sex : SExercise) : ERead (List (Option String × ℚ)) :=
  cachedReadE (fun s => s.scoreWeightsC)
    (fun v s => { s with scoreWeightsC := some v })
    (fun s =>
      match readIfields sex s with
      | (.error e, s1) => (.error e, s1)
      | (.ok ifs, s1) =>
        match score_weightsFn sex.weights ifs with
        | .error e => (.error e, s1)
        | .ok w => (.ok w, s1))

/-- `ParametrizedExercise.the_solution` (`core.py` lines 333 to 363), a
`cached_property`. -/
def readTheSolution (sex : SExercise) : ERead (List (String × Val)) :=
  cachedReadE (fun s => s.theSolutionC)
    (fun v s => { s with theSolutionC := some v })
    (fun s =>
      match readParameters sex s with
      | (.error e, s1) => (.error e, s1)
      | (.ok ps, s1) =>
        match readIfields sex s1 with
        | (.error e, s2) => (.error e, s2)
        | (.ok ifs, s2) =>
          match the_solutionFn (sex.theSolutionHook s2.rng) ps ifs with
          | .error e => (.error e, tick s2)
          | .ok v => (.ok v, tick s2))

/-- `ParametrizedExercise.a_solution` (`core.py` lines 365 to 384), a
`cached_property`. -/
def readASolution (sex : SExercise) : ERead (List (String × Val)) :=
  cachedReadE (fun s => s.aSolutionC)
    (fun v s => { s with aSolutionC := some v })
    (fun s =>
      match readParameters sex s with
      | (.error e, s1) => (.error e, s1)
      | (.ok _, s1) =>
        match readIfields sex s1 with
        | (.error e, s2) => (.error e, s2)
        | (.ok ifs, s2) =>
          match a_solutionFn (sex.aSolutionHook s2.rng) ifs with
          | .error e => (.error e, tick s2)
          | .ok v => (.ok v, tick s2))

/-- `ParametrizedExercise.hints` (`core.py` lines 396 to 412), a
`cached_property`. -/
def readHints (sex : SExercise) : ERead HintsRes :=
  cachedReadE (fun s => s.hintsC)
    (fun v s => { s with hintsC := some v })
    (fun s =>
      match readParameters sex s with
      | (.error e, s1) => (.error e, s1)
      | (.ok _, s1) =>
        match readIfields sex s1 with
        | (.error e, s2) => (.error e, s2)
        | (.ok ifs, s2) => (.ok (hintsFn (sex.hintsHook s2.rng) ifs), tick s2))

/-- `ParametrizedExercise.solution` (`core.py` lines 386 to 394), a plain
property: re-merges the two cached solution mappings on every read. -/
def readSolution (sex : SExercise) : ERead (List (String × Val)) :=
  fun s =>
    match readTheSolution sex s with
    | (.error e, s1) => (.error e, s1)
    | (.ok t, s1) =>
      match readASolution sex s1 with
      | (.error e, s2) => (.error e, s2)
      | (.ok a, s2) =>
        match readIfields sex s2 with
        | (.error e, s3) => (.error e, s3)
        | (.ok ifs, s3) => (.ok (solutionFn t a ifs), s3)

/-- `ParametrizedExercise.max_scores` (`core.py` lines 456 to 540), a
`cached_property`; its computation also assigns
`self._max_total_score`. -/
def readMaxScores (sex : SExercise) : ERead (List (String × Option ℚ)) :=
  cachedReadE (fun s => s.maxScoresC)
    (fun v s => { s with maxScoresC := some v })
    (fun s =>
      match readSolution sex s with
      | (.error e, s1) => (.error e, s1)
      | (.ok sol, s1) =>
        match readParameters sex s1 with
        | (.error e, s2) => (.error e, s2)
        | (.ok ps, s2) =>
          match readIfields sex s2 with
          | (.error e, s3) => (.error e, s3)
          | (.ok ifs, s3) =>
            match max_scoresFn (sex.freeze ps ifs s3.rng) sol with
            | .error e => (.error e, tick s3)
            | .ok (ms, mt) => (.ok ms, { tick s3 with maxTotalScoreS := some mt }))

/-- `ParametrizedExercise.max_total_score` (`core.py` lines 629 to 632), a
plain property: triggers `max_scores` and reads
`self._max_total_score`. -/
def readMaxTotalScore (sex : SExercise) : ERead (Option ℚ) :=
  fun s =>
    match readMaxScores sex s with
    | (.error e, s1) => (.error e, s1)
    | (.ok _, s1) => (.ok s1.maxTotalScoreS, s1)

/-- `ParametrizedExercise.scores` (`core.py` lines 542 to 622), a plain
property: every read re-invokes the scores hook (fresh stream position) and
re-assigns `self._total_score`. -/
def readScores (sex : SExercise) : ERead (List (String × Option ℚ)) :=
  fun s =>
    match readSolution sex s with
    | (.error e, s1) => (.error e, s1)
    | (.ok _, s1) =>
      match readParameters sex s1 with
      | (.error e, s2) => (.error e, s2)
      | (.ok ps, s2) =>
        match readIfields sex s2 with
        | (.error e, s3) => (.error e, s3)
        | (.ok ifs, s3) =>
          match scoresFn (sex.freeze ps ifs s3.rng) s3.answers with
          | .error e => (.error e, tick s3)
          | .ok (sc, t) => (.ok sc, { tick s3 with totalScoreS := some t })

/-- `ParametrizedExercise.total_score` (`core.py` lines 624 to 627), a plain
property: triggers `scores` and reads `self._total_score`. -/
def readTotalScore (sex : SExercise) : ERead (Option ℚ) :=
  fun s =>
    match readScores sex s with
    | (.error e, s1) => (.error e, s1)
    | (.ok _, s1) => (.ok s1.totalScoreS, s1)

/-- A plain input field used by the concrete test instances: trivial and
dummy value 0, automatic maximal score 1, automatic score 0, fresh
correctness slot. -/
def fldPlain : IFieldT :=
  { trivialValue := .int 0, dummyValue := .int 0, autoMaxScore := 1,
    autoScore := 0, correctSlot := none }

/-- Concrete exercise with fields `a`, `b` and weight mapping `{a: 2}`. -/
def exMapW : Exercise :=
  { weights := .mapping [("a", 2)], params := [],
    ifields := [("a", fldPlain), ("b", fldPlain)],
    theSolutionOut := .noneS, aSolutionOut := .noneS,
    scoresHook := fun _ => .noneO, scoresDefaults := [] }

/-- Concrete exercise with fields `a`, `b` and scalar weight 3. -/
def exScalarW : Exercise :=
  { weights := .scalar 3, params := [],
    ifields := [("a", fldPlain), ("b", fldPlain)],
    theSolutionOut := .noneS, aSolutionOut := .noneS,
    scoresHook := fun _ => .noneO, scoresDefaults := [] }

/-- Concrete exercise with a single input field `x` and a scores hook that
always returns the number 1 (claim C1). -/
def exOneFieldNum : Exercise :=
  { weights := .scalar 1, params := [],
    ifields := [("x", fldPlain)],
    theSolutionOut := .noneS, aSolutionOut := .noneS,
    scoresHook := fun _ => .num 1, scoresDefaults := [] }

/-- Concrete exercise with two input fields `x`, `y` and a scores hook that
always returns the number 1 (claim C1, joint case). -/
def exTwoFieldNum : Exercise :=
  { weights := .scalar 1, params := [],
    ifields := [("x", fldPlain), ("y", fldPlain)],
    theSolutionOut := .noneS, aSolutionOut := .noneS,
    scoresHook := fun _ => .num 1, scoresDefaults := [] }

/-- Concrete exercise with input field `x_` and parameter `x = 7` for the
implicit-solution convention (claim C5). -/
def exImplicitSol : Exercise :=
  { weights := .scalar 1, params := [("x", .int 7)],
    ifields := [("x_", fldPlain)],
    theSolutionOut := .noneS, aSolutionOut := .noneS,
    scoresHook := fun _ => .noneO, scoresDefaults := [] }

/-- Concrete exercise with fields `x`, `y` and a per-field mapping scores
hook that scores both fields 5 (claims C6 and C10). -/
def exDictScores : Exercise :=
  { weights := .scalar 1, params := [],
    ifields := [("x", fldPlain), ("y", fldPlain)],
    theSolutionOut := .noneS, aSolutionOut := .noneS,
    scoresHook := fun _ => .mapping [("x", .num 5), ("y", .num 5)],
    scoresDefaults := [] }

/-- A stochastic exercise definition: the scores hook returns the current
random position as the score, all other hooks are deterministic; one input
field `x` (claim C2). -/
def sexStochastic : SExercise :=
  { weights := .scalar 1,
    parametersHook := fun _ => [],
    problemHook := fun _ =>
      { ifields := [("x", fldPlain)], ofields := [], template := "t", widgets := [0] },
    theSolutionHook := fun _ => .noneS,
    aSolutionHook := fun _ => .noneS,
    hintsHook := fun _ => .hseq [],
    scoresHook := fun r _ => .num r,
    scoresDefaults := [] }

/-- The fresh engine state of one attempt on `sexStochastic`, with an empty
answer for `x`. -/
def freshState : EngineState :=
  { rng := 0, answers := [("x", none)] }

theorem lookupKV_append {κ α : Type} [DecidableEq κ] (k : κ) (a b : List (κ × α)) :
    lookupKV k (a ++ b) = (lookupKV k a).orElse (fun _ => lookupKV k b) := by
  induction a with
  | nil => simp [lookupKV]
  | cons hd tl ih =>
    by_cases h : k = hd.1
    · simp [lookupKV, h, Option.orElse]
    · simpa [lookupKV, h] using ih

theorem lookupKV_map_keyed {κ α β : Type} [DecidableEq κ] (k : κ) (f : κ → α → β)
    (l : List (κ × α)) :
    lookupKV k (l.map (fun p => (p.1, f p.1 p.2))) = (lookupKV k l).map (f k) := by
  induction l with
  | nil => simp [lookupKV]
  | cons hd tl ih =>
    by_cases h : k = hd.1
    · subst h; simp [lookupKV]
    · simpa [lookupKV, h] using ih

theorem lookupKV_filter_of_notin {κ α : Type} [DecidableEq κ] (k : κ) (P : κ × α → Bool)
    (b : List (κ × α)) (h : ∀ v, (k, v) ∈ b → P (k, v) = true) :
    lookupKV k (b.filter P) = lookupKV k b := by
  induction b with
  | nil => simp
  | cons hd tl ih =>
    by_cases hk : k = hd.1
    · subst hk
      have : P hd = true := by
        have := h hd.2 (by simp)
        simpa using this
      simp [List.filter, this, lookupKV]
    · have htl : ∀ v, (k, v) ∈ tl → P (k, v) = true := fun v hv => h v (by simp [hv])
      by_cases hp : P hd = true
      · simp [List.filter, hp, lookupKV, hk, ih htl]
      · simp only [List.filter, Bool.not_eq_true] at hp ⊢
        rw [hp]
        rw [ih htl]
        simp [lookupKV, hk]

/-- Key lookup in a Python dict union: the right operand wins on common
keys. -/
theorem lookupKV_dunion {κ α : Type} [DecidableEq κ] (k : κ) (a b : List (κ × α)) :
    lookupKV k (dunion a b) = (lookupKV k b).orElse (fun _ => lookupKV k a) := by
  unfold dunion
  rw [lookupKV_append]
  have hmap : lookupKV k (a.map (fun p => match lookupKV p.1 b with
      | some v => (p.1, v)
      | none => p)) = (lookupKV k a).map (fun va => match lookupKV k b with
      | some v => v
      | none => va) := by
    have heq : (fun (p : κ × α) => match lookupKV p.1 b with
        | some v => (p.1, v)
        | none => p) = fun p => (p.1, match lookupKV p.1 b with
        | some v => v
        | none => p.2) := by
      funext p
      cases lookupKV p.1 b <;> rfl
    rw [heq]
    exact lookupKV_map_keyed k (fun k1 va => match lookupKV k1 b with
      | some v => v
      | none => va) a
  rw [hmap]
  cases ha : lookupKV k a with
  | some va =>
    cases hb : lookupKV k b with
    | some vb => simp [Option.orElse]
    | none => simp [Option.orElse]
  | none =>
    have : lookupKV k (b.filter (fun p => (lookupKV p.1 a).isNone)) = lookupKV k b := by
      apply lookupKV_filter_of_notin
      intro v _
      simp [ha]
    cases hb : lookupKV k b <;> simp [Option.orElse, this, hb]

theorem lookupKV_map_const {κ α β : Type} [DecidableEq κ] (k : κ) (c : β) (l : List (κ × α)) :
    lookupKV k (l.map (fun p => (p.1, c))) =
      if k ∈ l.map Prod.fst then some c else none := by
  induction l with
  | nil => simp [lookupKV]
  | cons hd tl ih =>
    by_cases h : k = hd.1
    · subst h; simp [lookupKV]
    · simp only [lookupKV, h, if_false, ih, List.map_cons, List.mem_cons]
      by_cases hm : k ∈ tl.map Prod.fst <;> simp [hm, h]
theorem lookupKV_isSome_iff_mem {κ α : Type} [DecidableEq κ] (k : κ)
    (l : List (κ × α)) : (lookupKV k l).isSome ↔ k ∈ l.map Prod.fst := by
  induction l with
  | nil => simp [lookupKV]
  | cons hd tl ih =>
    by_cases h : k = hd.1
    · subst h; simp [lookupKV]
    · simp [lookupKV, h, ih]

theorem lookupKV_eq_none_iff {κ α : Type} [DecidableEq κ] (k : κ)
    (l : List (κ × α)) : lookupKV k l = none ↔ k ∉ l.map Prod.fst := by
  rw [← lookupKV_isSome_iff_mem k l]
  cases lookupKV k l <;> simp

theorem lookupKV_map_someKey {κ α : Type} [DecidableEq κ] (k : κ)
    (m : List (κ × α)) :
    lookupKV (some k) (m.map (fun p => (some p.1, p.2))) = lookupKV k m := by
  induction m with
  | nil => simp [lookupKV]
  | cons hd tl ih =>
    by_cases h : k = hd.1
    · subst h; simp [lookupKV]
    · simp [lookupKV, h, ih]

theorem lookupKV_map_someKey_const {κ α β : Type} [DecidableEq κ] (k : κ)
    (c : β) (l : List (κ × α)) :
    lookupKV (some k) (l.map (fun p => (some p.1, c))) =
      if k ∈ l.map Prod.fst then some c else none := by
  induction l with
  | nil => simp [lookupKV]
  | cons hd tl ih =>
    by_cases h : k = hd.1
    · subst h; simp [lookupKV]
    · simp only [lookupKV, List.map_cons, Option.some.injEq, h, if_false, ih,
        List.mem_cons]
      by_cases hm : k ∈ tl.map Prod.fst <;> simp [hm, h]

theorem mapME_eq_map {α β : Type} (f : α → Except PyErr β) (g : α → β)
    (l : List α) (h : ∀ a ∈ l, f a = .ok (g a)) :
    mapME f l = .ok (l.map g) := by
  induction l with
  | nil => simp [mapME]
  | cons hd tl ih =>
    have hhd := h hd (by simp)
    have htl : ∀ a ∈ tl, f a = .ok (g a) := fun a ha => h a (by simp [ha])
    simp [mapME, hhd, ih htl]

theorem mapME_ok_forall {α β : Type} (f : α → Except PyErr β) (l : List α)
    (out : List β) (h : mapME f l = .ok out) :
    ∀ a ∈ l, ∃ b, f a = .ok b := by
  induction l generalizing out with
  | nil => simp
  | cons hd tl ih =>
    intro a ha
    simp only [mapME] at h
    cases hf : f hd with
    | error e => rw [hf] at h; cases h
    | ok b =>
      rw [hf] at h
      cases ht : mapME f tl with
      | error e => rw [ht] at h; cases h
      | ok bs =>
        rcases List.mem_cons.mp ha with rfl | hmem
        · exact ⟨b, hf⟩
        · exact ih bs ht a hmem

theorem mapME_keyed_lookup {κ α β : Type} [DecidableEq κ]
    (f : κ → α → Except PyErr β) (l : List (κ × α)) (out : List (κ × β))
    (h : mapME (fun p => (f p.1 p.2).map (fun b => (p.1, b))) l = .ok out)
    (n : κ) (e : α) (he : lookupKV n l = some e) :
    ∃ b, f n e = .ok b ∧ lookupKV n out = some b := by
  induction l generalizing out with
  | nil => simp [lookupKV] at he
  | cons hd tl ih =>
    simp only [mapME] at h
    cases hf : (f hd.1 hd.2).map (fun b => (hd.1, b)) with
    | error err => rw [hf] at h; cases h
    | ok hb =>
      rw [hf] at h
      cases ht : mapME (fun p => (f p.1 p.2).map (fun b => (p.1, b))) tl with
      | error err => rw [ht] at h; cases h
      | ok bs =>
        rw [ht] at h
        cases h
        cases hfv : f hd.1 hd.2 with
        | error err => rw [hfv] at hf; cases hf
        | ok bv =>
          rw [hfv] at hf
          simp only [Except.map] at hf
          cases hf
          by_cases hk : n = hd.1
          · subst hk
            simp only [lookupKV, if_pos rfl] at he
            cases he
            exact ⟨bv, hfv, by simp [lookupKV]⟩
          · simp only [lookupKV, if_neg hk] at he ⊢
            exact ih bs ht he

theorem lookupKV_restrict (sol : List (String × Val))
    (ifields : List (String × IFieldT)) (n : String) :
    lookupKV n (ifields.filterMap (fun p =>
        (lookupKV p.1 sol).map (fun v => (p.1, v)))) =
      if n ∈ ifields.map Prod.fst then lookupKV n sol else none := by
  induction ifields with
  | nil => simp [lookupKV]
  | cons hd tl ih =>
    rw [List.filterMap_cons]
    cases hs : lookupKV hd.1 sol with
    | some w =>
      simp only [hs, Option.map_some']
      by_cases h : n = hd.1
      · simp only [lookupKV, if_pos h, List.map_cons, List.mem_cons]
        rw [h, hs]
        simp
      · simp only [lookupKV, if_neg h, ih, List.map_cons, List.mem_cons]
        by_cases hm : n ∈ tl.map Prod.fst <;> simp [hm, h]
    | none =>
      simp only [hs, Option.map_none']
      rw [ih]
      by_cases h : n = hd.1
      · rw [h, hs]
        by_cases hm : hd.1 ∈ tl.map Prod.fst <;> simp [hm]
      · by_cases hm : n ∈ tl.map Prod.fst <;> simp [hm, h]

theorem implicitSolution_lookup (params : Bag)
    (ifields : List (String × IFieldT)) (explicit : List (String × Val))
    (n : String) (v : Val)
    (hmem : n ∈ ifields.map Prod.fst)
    (hu : endsWithUnderscore n = true)
    (hp : lookupKV (stripLast n) params = some v)
    (he : lookupKV n explicit = none) :
    lookupKV n (implicitSolution params ifields explicit) = some v := by
  induction ifields with
  | nil => simp at hmem
  | cons hd tl ih =>
    unfold implicitSolution
    rw [List.filterMap_cons]
    by_cases h : n = hd.1
    · subst h
      simp [hu, hasKey, hp, he, lookupKV]
    · have hmem2 : n = hd.1 ∨ n ∈ tl.map Prod.fst := by
        simpa only [List.map_cons, List.mem_cons] using hmem
      rcases hmem2 with hh | hmemtl
      · exact absurd hh h
      · by_cases hcond : (endsWithUnderscore hd.1 && hasKey (stripLast hd.1) params
            && !(hasKey hd.1 explicit)) = true
        · simp only [hcond, if_true]
          cases hpv : lookupKV (stripLast hd.1) params with
          | none =>
            simp only [hpv, Option.map_none']
            exact ih hmemtl
          | some w =>
            simp only [hpv, Option.map_some']
            rw [lookupKV, if_neg h]
            exact ih hmemtl
        · simp only [hcond, if_false, Bool.false_eq_true]
          exact ih hmemtl

theorem implicitSolution_lookup_none (params : Bag)
    (ifields : List (String × IFieldT)) (explicit : List (String × Val))
    (k : String) (w : Val) (he : lookupKV k explicit = some w) :
    lookupKV k (implicitSolution params ifields explicit) = none := by
  induction ifields with
  | nil => simp [implicitSolution, lookupKV]
  | cons hd tl ih =>
    unfold implicitSolution
    rw [List.filterMap_cons]
    by_cases h : k = hd.1
    · subst h
      simp only [hasKey, he, Option.isSome_some, Bool.not_true, Bool.and_false,
        if_false, Bool.false_eq_true]
      exact ih
    · by_cases hcond : (endsWithUnderscore hd.1 && hasKey (stripLast hd.1) params
          && !(hasKey hd.1 explicit)) = true
      · simp only [hcond, if_true]
        cases hpv : lookupKV (stripLast hd.1) params with
        | none =>
          simp only [hpv, Option.map_none']
          exact ih
        | some v2 =>
          simp only [hpv, Option.map_some']
          rw [lookupKV, if_neg h]
          exact ih
      · simp only [hcond, if_false, Bool.false_eq_true]
        exact ih

/-- Claim C4: weight normalization.  For a scalar weight `w`, `score_weights`
maps every input field to `w`, and equals the singleton `{None: w}` when
there are no input fields.  For a mapping weight whose keys all name input
fields, every input field gets its mapped weight, defaulting to `1.0` for
fields missing from the mapping; a mapping with a key that names no input
field raises a `ValueError`. -/
theorem score_weights_normalization :
    (∀ (ex : Exercise) (w : ℚ), ex.weights = .scalar w → ex.ifields ≠ [] →
      score_weights ex = .ok (ex.ifields.map (fun p => (some p.1, w)))) ∧
    (∀ (ex : Exercise) (w : ℚ), ex.weights = .scalar w → ex.ifields = [] →
      score_weights ex = .ok [(none, w)]) ∧
    (∀ (ex : Exercise) (m : List (String × ℚ)), ex.weights = .mapping m →
      (∀ k ∈ m.map Prod.fst, k ∈ ifieldNames ex) →
      ∃ res, score_weights ex = .ok res ∧
        ∀ n ∈ ifieldNames ex, lookupKV (some n) res = some ((lookupKV n m).getD 1)) ∧
    (∀ (ex : Exercise) (m : List (String × ℚ)), ex.weights = .mapping m →
      (∃ k ∈ m.map Prod.fst, k ∉ ifieldNames ex) →
      ∃ msg, score_weights ex = .error (.valueError msg)) := by
  refine ⟨?_, ?_, ?_, ?_⟩
  · intro ex w hw hne
    simp [score_weights, score_weightsFn, hw, List.isEmpty_iff, hne]
  · intro ex w hw he
    simp [score_weights, score_weightsFn, hw, he]
  · intro ex m hw hsub
    have hall : m.all (fun p => hasKey p.1 ex.ifields) = true := by
      rw [List.all_eq_true]
      intro p hp
      have h1 : p.1 ∈ ex.ifields.map Prod.fst :=
        hsub p.1 (List.mem_map_of_mem Prod.fst hp)
      simpa only [hasKey] using (lookupKV_isSome_iff_mem p.1 ex.ifields).mpr h1
    refine ⟨m.map (fun p => (some p.1, p.2)) ++
        (ex.ifields.filter (fun p => (lookupKV p.1 m).isNone)).map
          (fun p => (some p.1, (1 : ℚ))), ?_, ?_⟩
    · simp [score_weights, score_weightsFn, hw, hall]
    · intro n hn
      rw [lookupKV_append, lookupKV_map_someKey]
      cases hm : lookupKV n m with
      | some v => simp [Option.orElse]
      | none =>
        have hmemf : n ∈ (ex.ifields.filter
            (fun p => (lookupKV p.1 m).isNone)).map Prod.fst := by
          rcases List.mem_map.mp hn with ⟨p, hpmem, rfl⟩
          exact List.mem_map_of_mem Prod.fst
            (List.mem_filter.mpr ⟨hpmem, by simp [hm]⟩)
        simp [Option.orElse, lookupKV_map_someKey_const, hmemf]
  · intro ex m hw hbad
    have hall : m.all (fun p => hasKey p.1 ex.ifields) = false := by
      rcases hbad with ⟨k, hkm, hknot⟩
      rcases List.mem_map.mp hkm with ⟨p, hpmem, rfl⟩
      rw [List.all_eq_false]
      refine ⟨p, hpmem, fun hc => hknot ?_⟩
      exact (lookupKV_isSome_iff_mem p.1 ex.ifields).mp (by simpa [hasKey] using hc)
    exact ⟨"All keys of weights have to match an input field.",
      by simp [score_weights, score_weightsFn, hw, hall]⟩

/-- Claim C4 witness: the concrete instance from the specification, fields
`{a, b}` with weight mapping `{a: 2.0}`, gives `a` weight 2 and `b` the
default 1; a scalar weight broadcasts to both fields. -/
theorem score_weights_normalization_witness :
    (∃ res, score_weights exMapW = .ok res ∧
      ∀ n ∈ ifieldNames exMapW,
        lookupKV (some n) res = some ((lookupKV n [("a", (2 : ℚ))]).getD 1)) ∧
    score_weights exScalarW = .ok [(some "a", 3), (some "b", 3)] := by
  constructor
  · exact score_weights_normalization.2.2.1 exMapW [("a", 2)] rfl
      (by simp [ifieldNames, exMapW])
  · exact score_weights_normalization.1 exScalarW 3 rfl (by simp [exScalarW])

/-- Claim C8: for an exercise with exactly one input field, `the_solution`
(and likewise `a_solution`) returning a bare non-mapping value produces the
same solution mapping as returning the singleton mapping for that field;
with more than one input field a bare return raises an ill-posed-exercise
error. -/
theorem bare_solution_single_field_equiv :
    (∀ (v : Val) (params : Bag) (n : String) (f : IFieldT),
      the_solutionFn (.bare v) params [(n, f)] =
        the_solutionFn (.mapping [(n, v)]) params [(n, f)]) ∧
    (∀ (v : Val) (params : Bag) (ifields : List (String × IFieldT)),
      1 < ifields.length →
      the_solutionFn (.bare v) params ifields = .error (.illPosed theSolutionMsg)) ∧
    (∀ (v : Val) (n : String) (f : IFieldT),
      a_solutionFn (.bare v) [(n, f)] = a_solutionFn (.mapping [(n, v)]) [(n, f)]) ∧
    (∀ (v : Val) (ifields : List (String × IFieldT)),
      1 < ifields.length →
      a_solutionFn (.bare v) ifields = .error (.illPosed aSolutionMsg)) := by
  refine ⟨fun v params n f => rfl, ?_, fun v n f => rfl, ?_⟩
  · intro v params ifields h
    cases ifields with
    | nil => simp at h
    | cons p1 tl =>
      cases tl with
      | nil => simp at h
      | cons p2 rest => rfl
  · intro v ifields h
    cases ifields with
    | nil => simp at h
    | cons p1 tl =>
      cases tl with
      | nil => simp at h
      | cons p2 rest => rfl

/-- Claim C8 witness: with the single field `x`, the bare solution value 7
and the mapping `{x: 7}` produce the same result, and with two fields the
bare value raises the ill-posed error. -/
theorem bare_solution_single_field_equiv_witness :
    the_solutionFn (.bare (.int 7)) [] [("x", fldPlain)] =
      the_solutionFn (.mapping [("x", .int 7)]) [] [("x", fldPlain)] ∧
    the_solutionFn (.bare (.int 7)) [] [("x", fldPlain), ("y", fldPlain)] =
      .error (.illPosed theSolutionMsg) :=
  ⟨bare_solution_single_field_equiv.1 (.int 7) [] "x" fldPlain,
   bare_solution_single_field_equiv.2.1 (.int 7) []
     [("x", fldPlain), ("y", fldPlain)] (by simp)⟩

/-- Claim C5: for an input field whose name ends in the reserved underscore
suffix, when the suffix-stripped parameter exists and no explicit solution
names the field, the merged solution mapping (and the `the_solution`
property) assigns that parameter value to the field; on field names with an
explicit solution, the explicit entry takes precedence in the merged
mapping. -/
theorem implicit_solution_inference
    (params : Bag) (ifields : List (String × IFieldT)) (out : SolOut)
    (explicit : List (String × Val))
    (hexp : explicitSolution out ifields theSolutionMsg = .ok explicit) :
    (∀ n v, n ∈ ifields.map Prod.fst → endsWithUnderscore n = true →
      lookupKV (stripLast n) params = some v → lookupKV n explicit = none →
      lookupKV n (mergedSolution params ifields explicit) = some v ∧
      ∃ sol, the_solutionFn out params ifields = .ok sol ∧
        lookupKV n sol = some v) ∧
    (∀ k w, lookupKV k explicit = some w →
      lookupKV k (mergedSolution params ifields explicit) = some w) := by
  constructor
  · intro n v hmem hu hp he
    have him := implicitSolution_lookup params ifields explicit n v hmem hu hp he
    have hmer : lookupKV n (mergedSolution params ifields explicit) = some v := by
      rw [mergedSolution, lookupKV_dunion, him]
      rfl
    refine ⟨hmer, ifields.filterMap (fun p =>
      (lookupKV p.1 (mergedSolution params ifields explicit)).map
        (fun w => (p.1, w))), ?_, ?_⟩
    · simp only [the_solutionFn, hexp, mergedSolution]
    · rw [lookupKV_restrict, if_pos hmem, hmer]
  · intro k w he
    rw [mergedSolution, lookupKV_dunion,
      implicitSolution_lookup_none params ifields explicit k w he]
    simp [Option.orElse, he]

/-- Claim C5 witness: field `x_` with parameter `x = 7` and no explicit
solution receives the implicit solution 7. -/
theorem implicit_solution_inference_witness :
    lookupKV "x_" (mergedSolution [("x", Val.int 7)] [("x_", fldPlain)] []) =
      some (.int 7) ∧
    ∃ sol, the_solutionFn .noneS [("x", Val.int 7)] [("x_", fldPlain)] =
      .ok sol ∧ lookupKV "x_" sol = some (.int 7) :=
  (implicit_solution_inference [("x", .int 7)] [("x_", fldPlain)] .noneS []
      rfl).1 "x_" (.int 7) (by simp) (by decide) (by decide) rfl

/-- Claim C1 (amended): joint scoring is all-or-nothing only when the number
of input fields differs from 1 — the joint branch of `scores` is guarded by
`len(self.ifields) != 1`.  Under that guard, when the probe result is a
number or pair and not every input field has a non-empty answer, the engine
forces the total score to 0.0 and reports every per-field score as `None`.
With exactly one input field a number-returning hook is scored field-wise on
the dummy-filled answer instead (see the counterexample). -/
theorem joint_scoring_all_or_nothing_multi_field
    (ex : Exercise) (raw : List (String × Option Val))
    (sol : List (String × Val))
    (hsol : solution ex = .ok sol)
    (hjoint : isNumOrPair (scoresProbe ex) = true)
    (hn : ex.ifields.length ≠ 1)
    (hmiss : keysSetEq ((nonEmptyAnswers raw).map Prod.fst) (ifieldNames ex)
      = false) :
    scoresP ex raw = .ok (noScoresMap ex, 0) ∧
    total_scoreP ex raw = .ok 0 := by
  have h1 : scoresP ex raw = .ok (noScoresMap ex, 0) := by
    simp only [scoresP, hsol]
    simp [scoresFn, hjoint, hmiss, hn]
  exact ⟨h1, by simp [total_scoreP, h1, Except.map]⟩

/-- Claim C1 counterexample: for an exercise with exactly one input field
`x`, a scores hook that always returns the number 1 and an empty answer
mapping, the joint branch is skipped (its guard requires not exactly one
field) and the total score is the hook value on the dummy-filled answer,
1.0, not the 0.0 the claim requires. -/
theorem single_field_number_hook_nonzero_total :
    total_scoreP exOneFieldNum [("x", none)] = .ok 1 ∧ (1 : ℚ) ≠ 0 := by
  constructor
  · simp [total_scoreP, scoresP, solution, the_solution, a_solution,
      the_solutionFn, a_solutionFn, explicitSolution, mergedSolution,
      implicitSolution, dunion, lookupKV, hasKey, exOneFieldNum, solutionFn,
      scoresProbe, dummy_input, nonEmptyAnswers, isNumOrPair, scoresFieldwise,
      scoresCallBag, scoresAnswers2, scoresFillValues, singleFieldResult,
      score_weights, score_weightsFn, windex, ifieldNames, noScoresMap,
      keysSetEq, endsWithUnderscore, stripLast, scoresFn, fldPlain, Except.map]
  · norm_num

/-- Claim C1 witness: two fields `x`, `y`, a number-returning hook, only `x`
answered: all per-field scores are `None` and the total is 0. -/
theorem joint_scoring_all_or_nothing_multi_field_witness :
    scoresP exTwoFieldNum [("x", some (.int 3)), ("y", none)] =
      .ok (noScoresMap exTwoFieldNum, 0) ∧
    total_scoreP exTwoFieldNum [("x", some (.int 3)), ("y", none)] = .ok 0 :=
  joint_scoring_all_or_nothing_multi_field exTwoFieldNum
    [("x", some (.int 3)), ("y", none)] [] rfl rfl (by decide) (by decide)

/-- Claim C10: in per-field mapping scoring, an input field whose answer was
empty (and therefore dummy-filled) but which appears in the mapping returned
by the scores hook is scored 0.0, overriding the hook value; the stored
weighted score is therefore 0. -/
theorem dummy_filled_field_scored_zero
    (ex : Exercise) (raw : List (String × Option Val))
    (M : List (String × ScoreEntry)) (n : String)
    (m : List (String × Option ℚ)) (t : ℚ)
    (hnotjoint : (isNumOrPair (scoresProbe ex)
      && !(decide (ex.ifields.length = 1))) = false)
    (hM : ex.scoresHook (scoresCallBag ex raw) = .mapping M)
    (hmem : n ∈ ifieldNames ex)
    (hfill : n ∈ (scoresFillValues ex raw).map Prod.fst)
    (hMn : hasKey n M = true)
    (hok : scoresP ex raw = .ok (m, t)) :
    lookupKV n m = some (some 0) := by
  cases hsol : solution ex with
  | error e => rw [scoresP, hsol] at hok; cases hok
  | ok sol =>
    rw [scoresP, hsol] at hok
    rw [scoresFn] at hok
    rw [hnotjoint] at hok
    simp only [Bool.false_eq_true, if_false] at hok
    rw [scoresFieldwise, hM] at hok
    simp only [dictResult] at hok
    cases hmap : mapME (fun p => (pscoreToScore p.2).map (fun q => (p.1, q)))
        ((scoresPhase1 ex ((scoresFillValues ex raw).map Prod.fst) M).map
          (fun p => (p.1, scoresFinalEntry ex p.1 p.2))) with
    | error e => rw [hmap] at hok; cases hok
    | ok entries =>
      rw [hmap] at hok
      have hm2 : m = entries.map (fun p => (p.1, some p.2)) := by
        cases hok
        rfl
      have he : ∃ e, lookupKV n M = some e := by
        rcases Option.isSome_iff_exists.mp (by simpa [hasKey] using hMn) with ⟨e, he⟩
        exact ⟨e, he⟩
      rcases he with ⟨e, he⟩
      have hcont1 : (ifieldNames ex).contains n = true := by
        simpa using List.elem_eq_true_of_mem hmem
      have hcont2 : ((scoresFillValues ex raw).map Prod.fst).contains n = true := by
        simpa using List.elem_eq_true_of_mem hfill
      have hl1 : lookupKV n (scoresPhase1 ex
          ((scoresFillValues ex raw).map Prod.fst) M) = some (.val 0) := by
        rw [scoresPhase1, lookupKV_append, lookupKV_map_keyed, he]
        have h1 : scoresPhase1Entry ex
            ((scoresFillValues ex raw).map Prod.fst) n e = .val 0 := by
          simp only [scoresPhase1Entry, hcont1, hcont2, if_true]
        simp [Option.orElse, h1]
      have hl2 : lookupKV n ((scoresPhase1 ex
          ((scoresFillValues ex raw).map Prod.fst) M).map
            (fun p => (p.1, scoresFinalEntry ex p.1 p.2))) =
          some (scoresFinalEntry ex n (.val 0)) := by
        rw [lookupKV_map_keyed, hl1]
        rfl
      rcases mapME_keyed_lookup (fun _ a => pscoreToScore a) _ entries hmap n
        (scoresFinalEntry ex n (.val 0)) hl2 with ⟨b, hb, hbl⟩
      have hfe : ∃ fld, lookupKV n ex.ifields = some fld :=
        Option.isSome_iff_exists.mp
          ((lookupKV_isSome_iff_mem n ex.ifields).mpr hmem)
      rcases hfe with ⟨fld, hfld⟩
      have hb0 : b = 0 := by
        cases hw : score_weights ex with
        | error err =>
          have hfeq : scoresFinalEntry ex n (.val 0) = .errP err := by
            rw [scoresFinalEntry, hfld]
            simp [hw]
          rw [hfeq] at hb
          simp [pscoreToScore] at hb
        | ok w =>
          cases hwn : lookupKV (some n) w with
          | none =>
            have hfeq : scoresFinalEntry ex n (.val 0) = .errP (.keyError n) := by
              rw [scoresFinalEntry, hfld]
              simp [hw, hwn]
            rw [hfeq] at hb
            simp [pscoreToScore] at hb
          | some wv =>
            have hfeq : scoresFinalEntry ex n (.val 0) = .val 0 := by
              rw [scoresFinalEntry, hfld]
              simp [hw, hwn]
            rw [hfeq] at hb
            simp only [pscoreToScore, Except.ok.injEq] at hb
            exact hb.symm
      subst hm2
      subst hb0
      have hfin := lookupKV_map_keyed n (fun _ q => (some q : Option ℚ)) entries
      simp only [hbl, Option.map_some'] at hfin
      exact hfin

/-- Claim C10 witness: fields `x`, `y`, hook mapping scoring both 5, `x`
unanswered (dummy-filled) and `y` answered: `x` is scored 0 despite the hook
returning 5 for it. -/
theorem dummy_filled_field_scored_zero_witness :
    lookupKV "x" [("x", some (0 : ℚ)), ("y", some 5)] = some (some 0) :=
  dummy_filled_field_scored_zero exDictScores [("x", none), ("y", some (.int 1))]
    [("x", .num 5), ("y", .num 5)] "x" [("x", some 0), ("y", some 5)] 5
    (by decide) rfl (by decide) (by decide) (by decide)
    (by simp [scoresP, solution, the_solution, a_solution, the_solutionFn,
      a_solutionFn, explicitSolution, mergedSolution, implicitSolution, dunion,
      lookupKV, hasKey, exDictScores, solutionFn, scoresProbe, dummy_input,
      nonEmptyAnswers, isNumOrPair, scoresFieldwise, scoresCallBag,
      scoresAnswers2, scoresFillValues, dictResult, scoresPhase1,
      scoresPhase1Entry, scoresFinalEntry, pscoreToScore, mapME, score_weights,
      score_weightsFn, windex, ifieldNames, noScoresMap, keysSetEq,
      endsWithUnderscore, stripLast, scoresFn, fldPlain, Except.map])

/-- Claim C6: per input field with a fresh correctness slot, `correct` is
`True` exactly when the computed score equals the computed maximal score,
`False` when both are present and unequal, and `None` when either is
`None`. -/
theorem correct_iff_score_equals_max
    (ex : Exercise) (raw : List (String × Option Val))
    (sc ms : List (String × Option ℚ)) (st mt : ℚ)
    (hfresh : ∀ p ∈ ex.ifields, p.2.correctSlot = none)
    (hms : max_scoresP ex = .ok (ms, mt))
    (hsc : scoresP ex raw = .ok (sc, st))
    (hcov : ∀ n ∈ ifieldNames ex,
      (lookupKV n sc).isSome ∧ (lookupKV n ms).isSome) :
    correctP ex raw = .ok (ex.ifields.map (fun p => (p.1,
      match lookupKV p.1 sc, lookupKV p.1 ms with
      | some (some a), some (some b) => some (decide (a = b))
      | _, _ => (none : Option Bool)))) := by
  simp only [correctP, hms, hsc, correctFn]
  apply mapME_eq_map
  intro p hp
  have hslot := hfresh p hp
  rcases hcov p.1 (List.mem_map_of_mem Prod.fst hp) with ⟨h1, h2⟩
  rcases Option.isSome_iff_exists.mp h1 with ⟨so, hso⟩
  rcases Option.isSome_iff_exists.mp h2 with ⟨mo, hmo⟩
  simp only [hslot, hso, hmo]
  cases so with
  | none => rfl
  | some sv =>
    cases mo with
    | none => rfl
    | some mv => rfl

/-- Claim C6 witness: with scores `{x: 0, y: 5}` and maximal scores
`{x: 1, y: 1}`, both fields compare unequal and are reported `False`. -/
theorem correct_iff_score_equals_max_witness :
    correctP exDictScores [("x", none), ("y", some (.int 1))] =
      .ok [("x", some false), ("y", some false)] := by
  have h := correct_iff_score_equals_max exDictScores
    [("x", none), ("y", some (.int 1))]
    [("x", some 0), ("y", some 5)] [("x", some 1), ("y", some 1)] 5 2
    (by intro p hp; fin_cases hp <;> rfl)
    (by norm_num [max_scoresP, max_scoresFn, solution, the_solution, a_solution,
      the_solutionFn, a_solutionFn, explicitSolution, mergedSolution,
      implicitSolution, dunion, lookupKV, hasKey, exDictScores, solutionFn,
      scoresProbe, dummy_input, score_weights, score_weightsFn, windex, mapME,
      ifieldNames, endsWithUnderscore, stripLast, fldPlain])
    (by simp [scoresP, solution, the_solution, a_solution, the_solutionFn,
      a_solutionFn, explicitSolution, mergedSolution, implicitSolution, dunion,
      lookupKV, hasKey, exDictScores, solutionFn, scoresProbe, dummy_input,
      nonEmptyAnswers, isNumOrPair, scoresFieldwise, scoresCallBag,
      scoresAnswers2, scoresFillValues, dictResult, scoresPhase1,
      scoresPhase1Entry, scoresFinalEntry, pscoreToScore, mapME, score_weights,
      score_weightsFn, windex, ifieldNames, noScoresMap, keysSetEq,
      endsWithUnderscore, stripLast, scoresFn, fldPlain, Except.map])
    (by decide)
  rw [h]
  simp only [exDictScores, List.map_cons, List.map_nil]
  norm_num [lookupKV, (show ("y" : String) ≠ "x" by decide)]

theorem checkDifficulty_ok (v : PyVal) (argName : String) (q : ℚ)
    (h : checkDifficulty v argName = .ok q) : 0 ≤ q ∧ q ≤ 1 := by
  unfold checkDifficulty at h
  split at h
  · split at h
    · rename_i hb
      cases h
      assumption
    · cases h
  · cases h

theorem weightEntryCheck_error_shape (p : PyVal × PyVal) (e : PyErr)
    (h : weightEntryCheck p = .error e) : ∃ msg, e = .valueError msg := by
  unfold weightEntryCheck at h
  split at h
  · split at h
    · cases h
    · cases h
      exact ⟨_, rfl⟩
  · cases h
    exact ⟨_, rfl⟩

theorem mapME_weightEntry_error_shape (entries : List (PyVal × PyVal))
    (e : PyErr) (h : mapME weightEntryCheck entries = .error e) :
    ∃ msg, e = .valueError msg := by
  induction entries with
  | nil => simp [mapME] at h
  | cons hd tl ih =>
    rw [mapME] at h
    cases hf : weightEntryCheck hd with
    | error e2 =>
      rw [hf] at h
      cases h
      exact weightEntryCheck_error_shape hd e hf
    | ok b =>
      rw [hf] at h
      cases ht : mapME weightEntryCheck tl with
      | error e2 =>
        rw [ht] at h
        cases h
        exact ih ht
      | ok bs => rw [ht] at h; cases h

/-- Claim C3 (amended): at construction time the wrapped constructor
validates that the difficulty bounds are numbers in the closed unit
interval and that the weights argument is a number or a dict with string
keys and numeric values; every accepted difficulty bound lies in the unit
interval.  However, weight values are not checked for sign — a negative
scalar weight is accepted (see the counterexample) — and the matching of
weight-mapping keys against input-field names is deferred to the first
evaluation of `score_weights` during an attempt, which is where that
configuration error is raised. -/
theorem construction_time_validation :
    (∀ (minD maxD w : Option PyVal) (cfg : ExerciseConfig),
      exercise_init minD maxD w = .ok cfg →
      (∀ q, cfg.minDifficulty = some q → 0 ≤ q ∧ q ≤ 1) ∧
      (∀ q, cfg.maxDifficulty = some q → 0 ≤ q ∧ q ≤ 1)) ∧
    (∀ (maxD w : Option PyVal) (q : ℚ), (q < 0 ∨ 1 < q) →
      ∃ msg, exercise_init (some (.num q)) maxD w = .error (.valueError msg)) ∧
    (∀ (w : Option PyVal) (q : ℚ), (q < 0 ∨ 1 < q) →
      ∃ msg, exercise_init none (some (.num q)) w = .error (.valueError msg)) ∧
    (∀ s, ∃ msg,
      exercise_init none none (some (.str s)) = .error (.valueError msg)) ∧
    (∃ msg, exercise_init none none (some .noneV) = .error (.valueError msg)) ∧
    (∃ msg, exercise_init none none (some .other) = .error (.valueError msg)) ∧
    (∀ entries p, p ∈ entries →
      ((∀ k, p.1 ≠ PyVal.str k) ∨ (∀ q, p.2 ≠ PyVal.num q)) →
      ∃ msg, exercise_init none none (some (.pdict entries)) =
        .error (.valueError msg)) ∧
    (∀ q : ℚ, exercise_init none none (some (.num q)) =
      .ok ⟨none, none, .scalar q⟩) ∧
    (∀ (ex : Exercise) (m : List (String × ℚ)), ex.weights = .mapping m →
      (∃ k ∈ m.map Prod.fst, k ∉ ifieldNames ex) →
      ∃ msg, score_weights ex = .error (.valueError msg)) := by
  refine ⟨?_, ?_, ?_, ?_, ⟨_, rfl⟩, ⟨_, rfl⟩, ?_, fun q => rfl, ?_⟩
  · intro minD maxD w cfg h
    unfold exercise_init at h
    split at h
    · cases h
    · rename_i minQ hmin
      split at h
      · cases h
      · rename_i maxQ hmax
        split at h
        · cases h
        · rename_i w2 hw
          cases h
          constructor
          · intro q hq
            cases minD with
            | none =>
              simp only at hmin
              cases hmin
              cases hq
            | some v =>
              simp only at hmin
              cases hcv : checkDifficulty v "min_difficulty" with
              | error e => rw [hcv] at hmin; cases hmin
              | ok qv =>
                rw [hcv] at hmin
                simp only [Except.map] at hmin
                cases hmin
                cases hq
                exact checkDifficulty_ok v _ _ hcv
          · intro q hq
            cases maxD with
            | none =>
              simp only at hmax
              cases hmax
              cases hq
            | some v =>
              simp only at hmax
              cases hcv : checkDifficulty v "max_difficulty" with
              | error e => rw [hcv] at hmax; cases hmax
              | ok qv =>
                rw [hcv] at hmax
                simp only [Except.map] at hmax
                cases hmax
                cases hq
                exact checkDifficulty_ok v _ _ hcv
  · intro maxD w q hq
    have hcond : ¬ (0 ≤ q ∧ q ≤ 1) := by
      rcases hq with hq | hq
      · exact fun hc => absurd hc.1 (not_le.mpr hq)
      · exact fun hc => absurd hc.2 (not_le.mpr hq)
    exact ⟨"min_difficulty",
      by simp [exercise_init, checkDifficulty, hcond, Except.map]⟩
  · intro w q hq
    have hcond : ¬ (0 ≤ q ∧ q ≤ 1) := by
      rcases hq with hq | hq
      · exact fun hc => absurd hc.1 (not_le.mpr hq)
      · exact fun hc => absurd hc.2 (not_le.mpr hq)
    exact ⟨"max_difficulty",
      by simp [exercise_init, checkDifficulty, hcond, Except.map]⟩
  · intro s
    exact ⟨_, rfl⟩
  · intro entries p hp hbad
    cases hmm : mapME weightEntryCheck entries with
    | ok m =>
      exfalso
      rcases mapME_ok_forall weightEntryCheck entries m hmm p hp with ⟨b, hb⟩
      rcases p with ⟨pk, pv⟩
      cases pk with
      | str k =>
        cases pv with
        | num q =>
          rcases hbad with hbad | hbad
          · exact hbad k rfl
          · exact hbad q rfl
        | str s2 => simp [weightEntryCheck] at hb
        | pdict d2 => simp [weightEntryCheck] at hb
        | noneV => simp [weightEntryCheck] at hb
        | other => simp [weightEntryCheck] at hb
      | num q2 => simp [weightEntryCheck] at hb
      | pdict d2 => simp [weightEntryCheck] at hb
      | noneV => simp [weightEntryCheck] at hb
      | other => simp [weightEntryCheck] at hb
    | error e =>
      rcases mapME_weightEntry_error_shape entries e hmm with ⟨msg, rfl⟩
      exact ⟨msg, by simp [exercise_init, checkWeights, hmm]⟩
  · intro ex m hw hbad
    have hall : m.all (fun p => hasKey p.1 ex.ifields) = false := by
      rcases hbad with ⟨k, hkm, hknot⟩
      rcases List.mem_map.mp hkm with ⟨p, hpmem, rfl⟩
      rw [List.all_eq_false]
      refine ⟨p, hpmem, fun hc => hknot ?_⟩
      exact (lookupKV_isSome_iff_mem p.1 ex.ifields).mp (by simpa [hasKey] using hc)
    exact ⟨"All keys of weights have to match an input field.",
      by simp [score_weights, score_weightsFn, hw, hall]⟩

/-- Claim C3 counterexample: the wrapped constructor accepts the negative
scalar weight -1 without error, so accepted weight values are not all
non-negative; nothing about weight keys versus field names is checked
here either (the input fields do not even exist yet at construction
time). -/
theorem negative_weight_accepted_at_construction :
    exercise_init none none (some (.num (-1))) =
      .ok ⟨none, none, .scalar (-1)⟩ ∧ (-1 : ℚ) < 0 :=
  ⟨rfl, by norm_num⟩

/-- Claim C3 witness: the out-of-range difficulty 2 is rejected at
construction, and the scalar weight 5 is accepted as is. -/
theorem construction_time_validation_witness :
    (∃ msg, exercise_init (some (.num 2)) none none =
      .error (.valueError msg)) ∧
    exercise_init none none (some (.num 5)) = .ok ⟨none, none, .scalar 5⟩ :=
  ⟨construction_time_validation.2.1 none none 2 (Or.inr (by norm_num)),
   construction_time_validation.2.2.2.2.2.2.2.1 5⟩

/-- Claim C7 (amended): on receipt of a submission signal the runner performs
the finishing steps in the canonical order — record the submission time,
reveal solutions (only when not already revealed in debug mode), notify
answers, maximal total score and total score, compute correct, render
feedback — and then persists, invokes the callback (when supplied) and logs
the summary only when the exercise has a content id; with no content id the
method returns right after rendering feedback, skipping those three steps.
The performed steps are always a subsequence of the canonical order, so no
steps are reordered. -/
theorem finish_event_order (d h c : Bool) :
    (finishTraceOf d h c).Sublist finishCanonicalOrder ∧
    FinishEvent.recordSubmittedAt ∈ finishTraceOf d h c ∧
    FinishEvent.notifyAnswers ∈ finishTraceOf d h c ∧
    FinishEvent.notifyMaxTotalScore ∈ finishTraceOf d h c ∧
    FinishEvent.notifyTotalScore ∈ finishTraceOf d h c ∧
    FinishEvent.computeCorrect ∈ finishTraceOf d h c ∧
    FinishEvent.renderFeedback ∈ finishTraceOf d h c ∧
    (FinishEvent.revealSolutions ∈ finishTraceOf d h c ↔ d = false) ∧
    (FinishEvent.persistResult ∈ finishTraceOf d h c ↔ h = true) ∧
    (FinishEvent.invokeCallback ∈ finishTraceOf d h c ↔ h = true ∧ c = true) ∧
    (FinishEvent.logSummary ∈ finishTraceOf d h c ↔ h = true) := by
  cases d <;> cases h <;> cases c <;> decide

/-- Claim C7 counterexample: when the exercise has no content id (its source
text is unavailable), `finish` skips the persistence and history-log steps
entirely, contradicting the claim that no step is skipped. -/
theorem finish_skips_persist_without_id :
    FinishEvent.persistResult ∉ finishTraceOf false false true ∧
    FinishEvent.invokeCallback ∉ finishTraceOf false false true ∧
    FinishEvent.logSummary ∉ finishTraceOf false false true := by
  decide

theorem pickOne_split (ws : List (Nat × ℚ)) (t : ℚ) (i : Nat)
    (rem : List (Nat × ℚ)) (h : pickOne ws t = some (i, rem)) :
    ∃ pre w post, ws = pre ++ (i, w) :: post ∧ rem = pre ++ post := by
  induction ws generalizing t rem with
  | nil => simp [pickOne] at h
  | cons hd tl ih =>
    rcases hd with ⟨j, u⟩
    rw [pickOne] at h
    by_cases ht : t < u
    · rw [if_pos ht] at h
      cases h
      exact ⟨[], u, tl, rfl, rfl⟩
    · rw [if_neg ht] at h
      cases hp : pickOne tl (t - u) with
      | none => rw [hp] at h; cases h
      | some pr =>
        rw [hp] at h
        rcases pr with ⟨i2, rem2⟩
        simp only [Option.map_some'] at h
        cases h
        rcases ih (t - u) rem2 hp with ⟨pre, w, post, h1, h2⟩
        exact ⟨(j, u) :: pre, w, post, by rw [h1]; rfl, by rw [h2]; rfl⟩

theorem sampleWR_subset (k : Nat) : ∀ (ws : List (Nat × ℚ)) (rs : List ℚ)
    (x : Nat), x ∈ sampleWR ws k rs → x ∈ ws.map Prod.fst := by
  induction k with
  | zero => intro ws rs x hx; simp [sampleWR] at hx
  | succ k ih =>
    intro ws rs x hx
    cases rs with
    | nil => simp [sampleWR] at hx
    | cons r rs2 =>
      cases hp : pickOne ws (r * (ws.map Prod.snd).sum) with
      | none => simp [sampleWR, hp] at hx
      | some pr =>
        rcases pr with ⟨i, rem⟩
        simp only [sampleWR, hp] at hx
        rcases pickOne_split ws _ i rem hp with ⟨pre, w, post, h1, h2⟩
        rcases List.mem_cons.mp hx with rfl | hx2
        · rw [h1]; simp
        · have hmem := ih rem rs2 x hx2
          rw [h2] at hmem
          rw [h1]
          simp only [List.map_append, List.mem_append] at hmem ⊢
          rcases hmem with hm | hm
          · exact Or.inl hm
          · exact Or.inr (by simp [hm])

theorem sampleWR_nodup (k : Nat) : ∀ (ws : List (Nat × ℚ)) (rs : List ℚ),
    (ws.map Prod.fst).Nodup → (sampleWR ws k rs).Nodup := by
  induction k with
  | zero => intro ws rs _; simp [sampleWR]
  | succ k ih =>
    intro ws rs h
    cases rs with
    | nil => simp [sampleWR]
    | cons r rs2 =>
      cases hp : pickOne ws (r * (ws.map Prod.snd).sum) with
      | none => simp [sampleWR, hp]
      | some pr =>
        rcases pr with ⟨i, rem⟩
        simp only [sampleWR, hp]
        rcases pickOne_split ws _ i rem hp with ⟨pre, w, post, h1, h2⟩
        have hws : ws.map Prod.fst = pre.map Prod.fst ++ i :: post.map Prod.fst := by
          rw [h1]; simp
        rw [hws] at h
        rcases List.nodup_append.mp h with ⟨hpre, hcons, hdisj⟩
        rcases List.nodup_cons.mp hcons with ⟨hiposti, hpost⟩
        have hpi : i ∉ pre.map Prod.fst := fun hmem => hdisj hmem (by simp)
        have hremnd : (rem.map Prod.fst).Nodup := by
          rw [h2]
          simp only [List.map_append]
          rw [List.nodup_append]
          exact ⟨hpre, hpost, fun a ha hb => hdisj ha (by simp [hb])⟩
        refine List.nodup_cons.mpr ⟨?_, ih rem rs2 hremnd⟩
        intro hmem
        have hsub := sampleWR_subset k rem rs2 i hmem
        rw [h2] at hsub
        simp only [List.map_append, List.mem_append] at hsub
        rcases hsub with hm | hm
        · exact hpi hm
        · exact hiposti hm

theorem pickOne_interval (pre : List (Nat × ℚ)) (i : Nat) (w : ℚ)
    (post : List (Nat × ℚ)) (δ : ℚ)
    (hpre : ∀ p ∈ pre, 0 ≤ p.2) (h0 : 0 ≤ δ) (hw : δ < w) :
    pickOne (pre ++ (i, w) :: post) ((pre.map Prod.snd).sum + δ) =
      some (i, pre ++ post) := by
  induction pre with
  | nil => simp [pickOne, hw]
  | cons hd tl ih =>
    rcases hd with ⟨j, u⟩
    rw [List.cons_append, pickOne]
    have hsum : 0 ≤ (tl.map Prod.snd).sum := by
      apply List.sum_nonneg
      intro x hx
      rcases List.mem_map.mp hx with ⟨p, hp, rfl⟩
      exact hpre p (by simp [hp])
    have hnot : ¬ ((((j, u) :: tl).map Prod.snd).sum + δ < u) := by
      simp only [List.map_cons, List.sum_cons]
      have hx : 0 ≤ (tl.map Prod.snd).sum + δ := add_nonneg hsum h0
      linarith
    rw [if_neg hnot]
    have harg : (((j, u) :: tl).map Prod.snd).sum + δ - u =
        (tl.map Prod.snd).sum + δ := by
      simp only [List.map_cons, List.sum_cons]
      ring
    rw [harg, ih (fun p hp => hpre p (by simp [hp]))]
    rfl

/-- Claim C9 (spec-modelled: the `Quiz` class is imported from `pyrope.core`
by `src/mypool.py` but not present in the provided sources, so the weighted
collection is modelled from the specification).  The exposed children of a
collection with `select` smaller than the number of children are chosen by
weighted sampling without replacement: the selection never repeats a child,
each draw picks an entry with probability proportional to its weight among
the remaining entries (an entry of weight `w` is chosen exactly on a target
interval of length `w` inside the remaining total), and the selected order
is permuted only when the shuffle flag is set and the navigation mode is
`free`. -/
theorem quiz_weighted_selection :
    (∀ (ws : List (Nat × ℚ)) (k : Nat) (rs : List ℚ),
      (ws.map Prod.fst).Nodup → (sampleWR ws k rs).Nodup) ∧
    (∀ (pre : List (Nat × ℚ)) (i : Nat) (w : ℚ) (post : List (Nat × ℚ))
      (δ : ℚ), (∀ p ∈ pre, 0 ≤ p.2) → 0 ≤ δ → δ < w →
      pickOne (pre ++ (i, w) :: post) ((pre.map Prod.snd).sum + δ) =
        some (i, pre ++ post)) ∧
    (∀ (q : Quiz) (rs : List ℚ) (perm : List Nat → List Nat),
      q.shuffle = false ∨ q.navigation = .sequential →
      exposedChildren q rs perm = baseSelection q rs) ∧
    (∀ (q : Quiz) (rs : List ℚ) (perm : List Nat → List Nat),
      q.shuffle = true → q.navigation = .free →
      exposedChildren q rs perm = perm (baseSelection q rs)) ∧
    (∀ (q : Quiz) (k : Nat) (rs : List ℚ), q.select = some k →
      k < q.numChildren →
      baseSelection q rs = sampleWR (normWeights q) k rs) := by
  refine ⟨?_, ?_, ?_, ?_, ?_⟩
  · intro ws k rs h
    exact sampleWR_nodup k ws rs h
  · intro pre i w post δ h1 h2 h3
    exact pickOne_interval pre i w post δ h1 h2 h3
  · intro q rs perm hcond
    rcases hcond with hs | hn
    · simp [exposedChildren, hs]
    · simp [exposedChildren, hn]
  · intro q rs perm hs hn
    simp [exposedChildren, hs, hn]
  · intro q k rs hsel hlt
    simp [baseSelection, hsel, hlt]

/-- Claim C9 witness: three children with weights `{0: 4, 1: 1, 2: 1}`: the
sample of two children has no duplicates, and the first entry of weight 4 is
picked exactly for targets inside its length-4 interval. -/
theorem quiz_weighted_selection_witness :
    (sampleWR [((0 : Nat), (4 : ℚ)), (1, 1), (2, 1)] 2 [1/2, 1/2]).Nodup ∧
    pickOne ([] ++ ((0 : Nat), (4 : ℚ)) :: [(1, 1), (2, 1)])
        ((([] : List (Nat × ℚ)).map Prod.snd).sum + 2) =
      some (0, [] ++ [(1, 1), (2, 1)]) :=
  ⟨quiz_weighted_selection.1 [(0, 4), (1, 1), (2, 1)] 2 [1/2, 1/2] (by decide),
   quiz_weighted_selection.2.1 [] 0 4 [(1, 1), (2, 1)] 2 (by simp)
     (by norm_num) (by norm_num)⟩

theorem cachedReadE_stable {α : Type} (get : EngineState → Option α)
    (set : α → EngineState → EngineState) (compute : ERead α)
    (hset : ∀ v s, get (set v s) = some v)
    (s : EngineState) (v : α) (s1 : EngineState)
    (h : cachedReadE get set compute s = (.ok v, s1)) :
    cachedReadE get set compute s1 = (.ok v, s1) := by
  unfold cachedReadE at h ⊢
  cases hg : get s with
  | some w =>
    rw [hg] at h
    have hx : Except.ok (ε := PyErr) w = .ok v ∧ s = s1 := by simpa using h
    rcases hx with ⟨hx1, hx2⟩
    cases hx1
    rw [← hx2, hg]
  | none =>
    rw [hg] at h
    rcases hc : compute s with ⟨r, s2⟩
    rw [hc] at h
    cases r with
    | ok w =>
      have hx : Except.ok (ε := PyErr) w = .ok v ∧ set w s2 = s1 := by simpa using h
      rcases hx with ⟨hx1, hx2⟩
      cases hx1
      rw [← hx2, hset]
    | error e =>
      simp at h

/-- Claim C2 (amended): the engine properties implemented with
`functools.cached_property` — `parameters`, `model`, `template`, `ifields`,
`widgets`, `the_solution`, `a_solution`, `hints`, `score_weights`,
`max_scores`, `trivial_input` and `dummy_input` — are computed at most once
per instance: a successful read fills the cache slot and any later read
returns the identical cached value without recomputation, even when the
underlying hooks are stochastic.  By contrast `solution`, `scores`,
`total_score`, `max_total_score` and `correct` are plain properties
recomputed on every read; in particular `scores` (and with it `total_score`)
re-invokes the scores hook on each read, so two reads can return different
values under a stochastic hook (see the counterexample). -/
theorem cached_properties_read_stable :
    (∀ (sex : SExercise) (s : EngineState) (v : Bag) (s1 : EngineState),
      readParameters sex s = (.ok v, s1) →
      readParameters sex s1 = (.ok v, s1)) ∧
    (∀ (sex : SExercise) (s : EngineState) (v : IModel) (s1 : EngineState),
      readModel sex s = (.ok v, s1) → readModel sex s1 = (.ok v, s1)) ∧
    (∀ (sex : SExercise) (s : EngineState) (v : String) (s1 : EngineState),
      readTemplate sex s = (.ok v, s1) → readTemplate sex s1 = (.ok v, s1)) ∧
    (∀ (sex : SExercise) (s : EngineState) (v : List (String × IFieldT))
      (s1 : EngineState),
      readIfields sex s = (.ok v, s1) → readIfields sex s1 = (.ok v, s1)) ∧
    (∀ (sex : SExercise) (s : EngineState) (v : List Nat) (s1 : EngineState),
      readWidgets sex s = (.ok v, s1) → readWidgets sex s1 = (.ok v, s1)) ∧
    (∀ (sex : SExercise) (s : EngineState) (v : List (String × Val))
      (s1 : EngineState),
      readTheSolution sex s = (.ok v, s1) →
      readTheSolution sex s1 = (.ok v, s1)) ∧
    (∀ (sex : SExercise) (s : EngineState) (v : List (String × Val))
      (s1 : EngineState),
      readASolution sex s = (.ok v, s1) →
      readASolution sex s1 = (.ok v, s1)) ∧
    (∀ (sex : SExercise) (s : EngineState) (v : HintsRes) (s1 : EngineState),
      readHints sex s = (.ok v, s1) → readHints sex s1 = (.ok v, s1)) ∧
    (∀ (sex : SExercise) (s : EngineState) (v : List (Option String × ℚ))
      (s1 : EngineState),
      readScoreWeights sex s = (.ok v, s1) →
      readScoreWeights sex s1 = (.ok v, s1)) ∧
    (∀ (sex : SExercise) (s : EngineState) (v : List (String × Option ℚ))
      (s1 : EngineState),
      readMaxScores sex s = (.ok v, s1) →
      readMaxScores sex s1 = (.ok v, s1)) ∧
    (∀ (sex : SExercise) (s : EngineState) (v : Bag) (s1 : EngineState),
      readTrivialInput sex s = (.ok v, s1) →
      readTrivialInput sex s1 = (.ok v, s1)) ∧
    (∀ (sex : SExercise) (s : EngineState) (v : Bag) (s1 : EngineState),
      readDummyInput sex s = (.ok v, s1) →
      readDummyInput sex s1 = (.ok v, s1)) := by
  refine ⟨?_, ?_, ?_, ?_, ?_, ?_, ?_, ?_, ?_, ?_, ?_, ?_⟩
  · intro sex s v s1 h
    unfold readParameters at h ⊢
    refine cachedReadE_stable _ _ _ ?_ s v s1 h
    intro v2 s2
    rfl
  · intro sex s v s1 h
    unfold readModel at h ⊢
    refine cachedReadE_stable _ _ _ ?_ s v s1 h
    intro v2 s2
    rfl
  · intro sex s v s1 h
    unfold readTemplate at h ⊢
    refine cachedReadE_stable _ _ _ ?_ s v s1 h
    intro v2 s2
    rfl
  · intro sex s v s1 h
    unfold readIfields at h ⊢
    refine cachedReadE_stable _ _ _ ?_ s v s1 h
    intro v2 s2
    rfl
  · intro sex s v s1 h
    unfold readWidgets at h ⊢
    refine cachedReadE_stable _ _ _ ?_ s v s1 h
    intro v2 s2
    rfl
  · intro sex s v s1 h
    unfold readTheSolution at h ⊢
    refine cachedReadE_stable _ _ _ ?_ s v s1 h
    intro v2 s2
    rfl
  · intro sex s v s1 h
    unfold readASolution at h ⊢
    refine cachedReadE_stable _ _ _ ?_ s v s1 h
    intro v2 s2
    rfl
  · intro sex s v s1 h
    unfold readHints at h ⊢
    refine cachedReadE_stable _ _ _ ?_ s v s1 h
    intro v2 s2
    rfl
  · intro sex s v s1 h
    unfold readScoreWeights at h ⊢
    refine cachedReadE_stable _ _ _ ?_ s v s1 h
    intro v2 s2
    rfl
  · intro sex s v s1 h
    unfold readMaxScores at h ⊢
    refine cachedReadE_stable _ _ _ ?_ s v s1 h
    intro v2 s2
    rfl
  · intro sex s v s1 h
    unfold readTrivialInput at h ⊢
    refine cachedReadE_stable _ _ _ ?_ s v s1 h
    intro v2 s2
    rfl
  · intro sex s v s1 h
    unfold readDummyInput at h ⊢
    refine cachedReadE_stable _ _ _ ?_ s v s1 h
    intro v2 s2
    rfl

/-- Claim C2 counterexample: with a stochastic scores hook (returning the
current random position), two consecutive reads of the `scores` property of
the same engine instance return different values — the first read yields
score 4, the second 5 — because `scores` is a plain property that re-invokes
the hook on every read. -/
theorem scores_reads_differ_under_stochastic_hook :
    (readScores sexStochastic freshState).1 = .ok [("x", some 4)] ∧
    (readScores sexStochastic ((readScores sexStochastic freshState).2)).1 =
      .ok [("x", some 5)] ∧
    (readScores sexStochastic freshState).1 ≠
      (readScores sexStochastic ((readScores sexStochastic freshState).2)).1 := by
  have h1 : (readScores sexStochastic freshState).1 = .ok [("x", some 4)] := by
    norm_num [readScores, readSolution, readTheSolution, readASolution,
      readParameters, readIfields, readModel, cachedReadE, tick,
      SExercise.freeze, sexStochastic, freshState, scoresFn, scoresProbe,
      dummy_input, nonEmptyAnswers, isNumOrPair, scoresFieldwise, scoresCallBag,
      scoresAnswers2, scoresFillValues, singleFieldResult, score_weights,
      score_weightsFn, windex, ifieldNames, noScoresMap, keysSetEq, dunion,
      lookupKV, hasKey, the_solutionFn, a_solutionFn, explicitSolution,
      mergedSolution, implicitSolution, solutionFn, endsWithUnderscore,
      stripLast, fldPlain]
  have h2 : (readScores sexStochastic ((readScores sexStochastic freshState).2)).1 =
      .ok [("x", some 5)] := by
    norm_num [readScores, readSolution, readTheSolution, readASolution,
      readParameters, readIfields, readModel, cachedReadE, tick,
      SExercise.freeze, sexStochastic, freshState, scoresFn, scoresProbe,
      dummy_input, nonEmptyAnswers, isNumOrPair, scoresFieldwise, scoresCallBag,
      scoresAnswers2, scoresFillValues, singleFieldResult, score_weights,
      score_weightsFn, windex, ifieldNames, noScoresMap, keysSetEq, dunion,
      lookupKV, hasKey, the_solutionFn, a_solutionFn, explicitSolution,
      mergedSolution, implicitSolution, solutionFn, endsWithUnderscore,
      stripLast, fldPlain]
  refine ⟨h1, h2, ?_⟩
  rw [h1, h2]
  norm_num

/-- Claim C2 witness: a successful first read of `parameters` fills its
cache slot, and the second read returns the identical value and leaves the
state unchanged. -/
theorem cached_properties_read_stable_witness :
    readParameters sexStochastic
      { rng := 1, answers := [("x", none)], parametersC := some [] } =
      (.ok [], { rng := 1, answers := [("x", none)], parametersC := some [] }) :=
  cached_properties_read_stable.1 sexStochastic freshState [] _ rfl
